import Mathlib

/-!
# s3-mirror: a verification development

A shallow embedding of the Go packages `internal/config`, `internal/storage`,
`internal/mirror` and `cmd/s3-mirror` of `michaelahli/s3-mirror`, followed by
theorems about the configuration, the start of `main` and the mirroring
engine.

* Storage back ends (the `storage.Client` interface) are state-passing
  functions over an arbitrary state `σ` of the outside world; the engine is
  verified for every such pair of clients. A result `(nil, nil)` of
  `HeadObject` is not modelled.
* `Service.Mirror` starts goroutines. It is embedded as a machine with one
  program counter per goroutine and an interleaving step function
  `Machine.step`; a schedule (a list of thread ids) says which goroutine moves
  next. Every access to the shared `Stats` is one step, as each is a
  `sync/atomic` operation in the source; so is every channel and wait group
  operation and every call on a storage client.
* `copyObject` and the loop of `worker` are also given as plain functions
  (`copyObject`, `workerIteration`, `worker`); `jobRun_copyObject` and
  `iterationRun_worker` relate them to the steps of the machine.
* `main` is embedded up to its call of `mirror.NewService`, with each of its
  `log.Fatalf` exits. The calls that leave the repository are parameters:
  reading and parsing the configuration file (`read`), and the constructors
  of the vendor SDKs (`SDK`), each of which may fail.
* `int64` arithmetic wraps (`wrapInt64`); Go `int` values are integers.
* `log.Printf` calls, `body.Close()` and `context.Background()` are not
  modelled; `Verbose` only affects logging.
-/

namespace S3Mirror

/-! ## Go values -/

/-- A Go `error` value: `errors.New(msg)` or `fmt.Errorf(msg + "%w", cause)`. -/
inductive GoError where
  | new (msg : String)
  | wrap (msg : String) (cause : GoError)
  deriving DecidableEq, Repr

/-- Two's-complement reduction of an integer into the `int64` range. -/
def wrapInt64 (x : Int) : Int := (x + 9223372036854775808) % 18446744073709551616 - 9223372036854775808

/-- The value left in memory by `atomic.AddInt64(addr, delta)` when `*addr = val`. -/
def AddInt64 (val delta : Int) : Int := wrapInt64 (val + delta)

/-! ## internal/config/config.go -/

/-- Go struct `config.StorageConfig`; field `Type` is spelled `Type'`. -/
structure StorageConfig where
  Type' : String
  Bucket : String
  Region : String
  Endpoint : String
  AccessKeyID : String
  SecretAccessKey : String
  UseSSL : Bool
  Prefix : String
  deriving DecidableEq, Repr

/-- Go struct `config.Config`. -/
structure Config where
  Source : StorageConfig
  Target : StorageConfig
  Workers : Int
  DryRun : Bool
  Verbose : Bool
  deriving DecidableEq, Repr

/-- `(*Config).validateStorageConfig`; `none` is the nil error. -/
def validateStorageConfig (name : String) (cfg : StorageConfig) : Option GoError :=
  if cfg.Type' ≠ "s3" ∧ cfg.Type' ≠ "minio" then
    some (.new (name ++ ": type must be 's3' or 'minio'"))
  else if cfg.Bucket = "" then
    some (.new (name ++ ": bucket cannot be empty"))
  else if cfg.Type' = "minio" then
    if cfg.Endpoint = "" then
      some (.new (name ++ ": endpoint is required for MinIO"))
    else if cfg.AccessKeyID = "" then
      some (.new (name ++ ": access_key_id is required for MinIO"))
    else if cfg.SecretAccessKey = "" then
      some (.new (name ++ ": secret_access_key is required for MinIO"))
    else none
  else none

/-- `(*Config).Validate`; `none` is the nil error. -/
def Validate (c : Config) : Option GoError :=
  match validateStorageConfig "source" c.Source with
  | some err => some err
  | none =>
    match validateStorageConfig "target" c.Target with
    | some err => some err
    | none =>
      if c.Workers < 1 then some (.new "workers must be at least 1")
      else if c.Workers > 100 then some (.new "workers cannot exceed 100")
      else none

/-- `config.LoadFromFile`. The argument `read` stands for `os.ReadFile` followed
by `yaml.Unmarshal`: the configuration in the file, or the error of either
call. Lines 43-62 then fill in the defaults. -/
def LoadFromFile (read : String → Except GoError Config) (filename : String) :
    Except GoError Config :=
  match read filename with
  | .error err => .error err
  | .ok cfg =>
    let cfg := if cfg.Workers = 0 then { cfg with Workers := 10 } else cfg
    let cfg := if cfg.Source.Type' = "" then
      { cfg with Source := { cfg.Source with Type' := "s3" } } else cfg
    let cfg := if cfg.Target.Type' = "" then
      { cfg with Target := { cfg.Target with Type' := "s3" } } else cfg
    let cfg := if cfg.Source.Type' = "s3" ∧ cfg.Source.Region = "" then
      { cfg with Source := { cfg.Source with Region := "us-east-1" } } else cfg
    let cfg := if cfg.Target.Type' = "s3" ∧ cfg.Target.Region = "" then
      { cfg with Target := { cfg.Target with Region := "us-east-1" } } else cfg
    .ok cfg

/-! ## internal/storage/storage.go -/

/-- Go struct `storage.ObjectInfo`. -/
structure ObjectInfo where
  Key : String
  Size : Int
  ETag : String
  LastModified : String
  deriving DecidableEq, Repr

/-- The content delivered by an `io.ReadCloser`. -/
abbrev Body := String

/-- Go interface `storage.Client`, as state-passing functions over the state `σ`
of the outside world. A Go result `(v, err)` is `Except GoError _`, a lone
`error` is `Option GoError`. -/
structure Client (σ : Type) where
  ListObjects : σ → String → Except GoError (List ObjectInfo) × σ
  GetObject : σ → String → Except GoError Body × σ
  PutObject : σ → String → Body → Int → Option GoError × σ
  HeadObject : σ → String → Except GoError ObjectInfo × σ
  CopyObject : σ → String → String → Option GoError × σ
  GetBucket : String

/-! ## internal/storage/s3_client.go and internal/storage/minio_client.go

The constructors of the two implementations of `storage.Client`. -/

/-- The calls of the constructors into the vendor SDKs:
`awsconfig.LoadDefaultConfig(ctx, awsconfig.WithRegion(region))`,
`s3.NewFromConfig(awsCfg)`, and `minio.New(endpoint, opts)` with the static
credentials `accessKeyID`, `secretAccessKey` and `Secure: useSSL`. The types
`C`, `A` and `M` are those of `aws.Config`, `*s3.Client` and `*minio.Client`. -/
structure SDK (C A M : Type) where
  LoadDefaultConfig : String → Except GoError C
  NewFromConfig : C → A
  New : String → String → String → Bool → Except GoError M

/-- Go struct `storage.S3Client`. -/
structure S3Client (A : Type) where
  s3Client : A
  bucket : String
  region : String
  deriving DecidableEq, Repr

/-- Go struct `storage.MinIOClient`. -/
structure MinIOClient (M : Type) where
  client : M
  bucket : String
  deriving DecidableEq, Repr

/-- `storage.NewS3Client`. -/
def NewS3Client {C A M : Type} (sdk : SDK C A M) (cfg : StorageConfig) :
    Except GoError (S3Client A) :=
  match sdk.LoadDefaultConfig cfg.Region with
  | .error err => .error err
  | .ok awsCfg =>
    .ok { s3Client := sdk.NewFromConfig awsCfg, bucket := cfg.Bucket, region := cfg.Region }

/-- `storage.NewMinIOClient`. -/
def NewMinIOClient {C A M : Type} (sdk : SDK C A M) (cfg : StorageConfig) :
    Except GoError (MinIOClient M) :=
  match sdk.New cfg.Endpoint cfg.AccessKeyID cfg.SecretAccessKey cfg.UseSSL with
  | .error err => .error err
  | .ok client => .ok { client := client, bucket := cfg.Bucket }

/-! ## internal/storage/storage.go, `NewClient` -/

/-- A value of the interface type `storage.Client` as `NewClient` returns it:
a client of one of the two implementations. -/
inductive ClientValue (A M : Type) where
  | s3Client (c : S3Client A)
  | minIOClient (c : MinIOClient M)
  deriving DecidableEq, Repr

/-- The cases of the `switch cfg.Type` of `storage.NewClient`. -/
inductive NewClientBranch where
  | newS3Client
  | newMinIOClient
  | unsupported
  deriving DecidableEq, Repr

/-- The case that the `switch cfg.Type` of `storage.NewClient` selects. -/
def NewClient.branch (cfg : StorageConfig) : NewClientBranch :=
  if cfg.Type' = "s3" then .newS3Client
  else if cfg.Type' = "minio" then .newMinIOClient
  else .unsupported

/-- `storage.NewClient`. -/
def NewClient {C A M : Type} (sdk : SDK C A M) (cfg : StorageConfig) :
    Except GoError (ClientValue A M) :=
  match NewClient.branch cfg with
  | .newS3Client =>
    match NewS3Client sdk cfg with
    | .error err => .error err
    | .ok c => .ok (.s3Client c)
  | .newMinIOClient =>
    match NewMinIOClient sdk cfg with
    | .error err => .error err
    | .ok c => .ok (.minIOClient c)
  | .unsupported => .error (.new ("unsupported storage type: " ++ cfg.Type'))

/-! ## cmd/s3-mirror/main.go -/

/-- The command line flags after `flag.Parse()`. -/
structure Flags where
  configFile : String
  workers : Int
  dryRun : Bool
  verbose : Bool
  deriving DecidableEq, Repr

/-- How far `main` gets: one of its four `log.Fatalf` exits before the engine
is created, or the call `mirror.NewService(sourceClient, targetClient, cfg)`. -/
inductive Startup (A M : Type) where
  | failedToLoad (err : GoError)
  | configurationError (err : GoError)
  | failedSourceClient (err : GoError)
  | failedTargetClient (err : GoError)
  | engine (sourceClient targetClient : ClientValue A M) (cfg : Config)
  deriving DecidableEq, Repr

/-- Lines 29-38 of `main`: the flags override the loaded configuration. -/
def overrideFlags (flags : Flags) (cfg : Config) : Config :=
  let cfg := if flags.workers > 0 then { cfg with Workers := flags.workers } else cfg
  let cfg := if flags.dryRun then { cfg with DryRun := true } else cfg
  let cfg := if flags.verbose then { cfg with Verbose := true } else cfg
  cfg

/-- Lines 40-57 of `main`: validation, the two storage clients, and the call
of `mirror.NewService`. -/
def startup {C A M : Type} (sdk : SDK C A M) (cfg : Config) : Startup A M :=
  match Validate cfg with
  | some err => .configurationError err
  | none =>
    match NewClient sdk cfg.Source with
    | .error err => .failedSourceClient err
    | .ok sourceClient =>
      match NewClient sdk cfg.Target with
      | .error err => .failedTargetClient err
      | .ok targetClient => .engine sourceClient targetClient cfg

/-- `main`, up to the call of `mirror.NewService`. -/
def main {C A M : Type} (sdk : SDK C A M) (read : String → Except GoError Config)
    (flags : Flags) : Startup A M :=
  match LoadFromFile read flags.configFile with
  | .error err => .failedToLoad err
  | .ok cfg => startup sdk (overrideFlags flags cfg)

/-! ## internal/mirror/mirror.go -/

/-- Go struct `mirror.Stats` (five `int64` fields). -/
structure Stats where
  TotalObjects : Int
  CopiedObjects : Int
  SkippedObjects : Int
  Errors : Int
  BytesTransferred : Int
  deriving DecidableEq, Repr

/-- The fields of `Stats` that are targets of `atomic.AddInt64`. -/
inductive Counter where
  | CopiedObjects
  | SkippedObjects
  | Errors
  | BytesTransferred
  deriving DecidableEq, Repr

/-- `atomic.AddInt64(&stats.<c>, delta)`. -/
def Stats.atomicAdd (st : Stats) (c : Counter) (delta : Int) : Stats :=
  match c with
  | .CopiedObjects => { st with CopiedObjects := AddInt64 st.CopiedObjects delta }
  | .SkippedObjects => { st with SkippedObjects := AddInt64 st.SkippedObjects delta }
  | .Errors => { st with Errors := AddInt64 st.Errors delta }
  | .BytesTransferred => { st with BytesTransferred := AddInt64 st.BytesTransferred delta }

/-- Go struct `mirror.Service` (`ctx` is `context.Background()` and is left out). -/
structure Service (σ : Type) where
  sourceClient : Client σ
  targetClient : Client σ
  config : Config
  stats : Stats

/-- `mirror.NewService`: the `stats` field is zero-valued. -/
def NewService {σ : Type} (sourceClient targetClient : Client σ) (cfg : Config) : Service σ :=
  { sourceClient := sourceClient, targetClient := targetClient, config := cfg,
    stats := ⟨0, 0, 0, 0, 0⟩ }

/-- One observable action of a run: a call on a storage client with its
answer, or an atomic update of a counter. The `obj` component records the
listed object on whose behalf the action was made (history variable). -/
inductive Event where
  | listObjects (pfx : String) (res : Except GoError (List ObjectInfo))
  | headObject (obj : ObjectInfo) (key : String) (res : Except GoError ObjectInfo)
  | getObject (obj : ObjectInfo) (key : String) (res : Except GoError Body)
  | putObject (obj : ObjectInfo) (key : String) (body : Body) (size : Int) (res : Option GoError)
  | atomicAdd (obj : ObjectInfo) (c : Counter) (delta : Int)

/-- What all goroutines share: the outside world behind the two clients, the
`stats` field of the service, and the history of actions so far. -/
structure Shared (σ : Type) where
  world : σ
  stats : Stats
  trace : List Event

/-- `atomic.AddInt64` on a counter of the shared stats, recorded in the history. -/
def Shared.atomicAdd {σ : Type} (sh : Shared σ) (obj : ObjectInfo) (c : Counter) (delta : Int) :
    Shared σ :=
  { sh with stats := sh.stats.atomicAdd c delta, trace := sh.trace ++ [.atomicAdd obj c delta] }

/-- Local variable `targetKey` of `copyObject` (lines 98-101). -/
def targetKey (cfg : Config) (obj : ObjectInfo) : String :=
  if cfg.Target.Prefix ≠ "" then cfg.Target.Prefix ++ obj.Key else obj.Key

/-- The test `err == nil && targetObj.ETag == obj.ETag` of lines 105-107. -/
def sameETag (res : Except GoError ObjectInfo) (obj : ObjectInfo) : Bool :=
  match res with
  | .ok targetObj => targetObj.ETag == obj.ETag
  | .error _ => false

/-- `(*Service).copyObject`, run without interference from other goroutines.
Returns the Go `error` (`none` is nil) and the shared state it leaves. -/
def copyObject {σ : Type} (s : Service σ) (obj : ObjectInfo) (sh : Shared σ) :
    Option GoError × Shared σ :=
  let key := targetKey s.config obj
  let head := s.targetClient.HeadObject sh.world key
  let sh1 : Shared σ := { sh with world := head.2, trace := sh.trace ++ [.headObject obj key head.1] }
  if sameETag head.1 obj then
    (none, sh1.atomicAdd obj .SkippedObjects 1)
  else if s.config.DryRun then
    (none, sh1.atomicAdd obj .CopiedObjects 1)
  else
    let get := s.sourceClient.GetObject sh1.world obj.Key
    let sh2 : Shared σ := { sh1 with world := get.2, trace := sh1.trace ++ [.getObject obj obj.Key get.1] }
    match get.1 with
    | .error err => (some (.wrap "failed to get object: " err), sh2)
    | .ok body =>
      let put := s.targetClient.PutObject sh2.world key body obj.Size
      let sh3 : Shared σ :=
        { sh2 with world := put.2, trace := sh2.trace ++ [.putObject obj key body obj.Size put.1] }
      match put.1 with
      | some err => (some (.wrap "failed to put object: " err), sh3)
      | none => (none, (sh3.atomicAdd obj .CopiedObjects 1).atomicAdd obj .BytesTransferred obj.Size)

/-- One iteration of the range loop of `(*Service).worker` (lines 88-91), run
without interference: `copyObject`, then the `Errors` counter on a non-nil error. -/
def workerIteration {σ : Type} (s : Service σ) (obj : ObjectInfo) (sh : Shared σ) : Shared σ :=
  match (copyObject s obj sh).1 with
  | some _ => (copyObject s obj sh).2.atomicAdd obj .Errors 1
  | none => (copyObject s obj sh).2

/-- `(*Service).worker` run without interference on the objects it receives
from `objectChan`. -/
def worker {σ : Type} (s : Service σ) (objectChan : List ObjectInfo) (sh : Shared σ) : Shared σ :=
  objectChan.foldl (fun sh obj => workerIteration s obj sh) sh

/-- Program counter of a `worker` goroutine. Each constructor is the next
shared action the goroutine will make (source line in brackets). -/
inductive WorkerPc where
  /-- Waiting in `for obj := range objectChan` [87]. -/
  | recv
  /-- About to call `targetClient.HeadObject` [104]. -/
  | callHead (obj : ObjectInfo)
  /-- About to add 1 to `SkippedObjects` [111]. -/
  | addSkipped (obj : ObjectInfo)
  /-- About to add 1 to `CopiedObjects` in a dry run [119]. -/
  | addCopiedDry (obj : ObjectInfo)
  /-- About to call `sourceClient.GetObject` [124]. -/
  | callGet (obj : ObjectInfo)
  /-- About to call `targetClient.PutObject` [131]. -/
  | callPut (obj : ObjectInfo) (body : Body)
  /-- About to add 1 to `CopiedObjects` [139]. -/
  | addCopied (obj : ObjectInfo)
  /-- About to add the size to `BytesTransferred` [140]. -/
  | addBytes (obj : ObjectInfo)
  /-- Back in `worker` with a non-nil error, about to add 1 to `Errors` [90]. -/
  | addErrors (obj : ObjectInfo) (err : GoError)
  /-- The range loop ended and the deferred `wg.Done()` ran [85]. -/
  | exited
  deriving DecidableEq, Repr

/-- One shared action of a worker that holds an object: the body of the range
loop of `worker` with `copyObject` inlined, cut at every shared action. -/
def jobStep {σ : Type} (s : Service σ) (pc : WorkerPc) (sh : Shared σ) : WorkerPc × Shared σ :=
  match pc with
  | .callHead obj =>
    let key := targetKey s.config obj
    let head := s.targetClient.HeadObject sh.world key
    let sh1 : Shared σ := { sh with world := head.2, trace := sh.trace ++ [.headObject obj key head.1] }
    if sameETag head.1 obj then (.addSkipped obj, sh1)
    else if s.config.DryRun then (.addCopiedDry obj, sh1)
    else (.callGet obj, sh1)
  | .addSkipped obj => (.recv, sh.atomicAdd obj .SkippedObjects 1)
  | .addCopiedDry obj => (.recv, sh.atomicAdd obj .CopiedObjects 1)
  | .callGet obj =>
    let get := s.sourceClient.GetObject sh.world obj.Key
    let sh2 : Shared σ := { sh with world := get.2, trace := sh.trace ++ [.getObject obj obj.Key get.1] }
    match get.1 with
    | .error err => (.addErrors obj (.wrap "failed to get object: " err), sh2)
    | .ok body => (.callPut obj body, sh2)
  | .callPut obj body =>
    let key := targetKey s.config obj
    let put := s.targetClient.PutObject sh.world key body obj.Size
    let sh3 : Shared σ :=
      { sh with world := put.2, trace := sh.trace ++ [.putObject obj key body obj.Size put.1] }
    match put.1 with
    | some err => (.addErrors obj (.wrap "failed to put object: " err), sh3)
    | none => (.addCopied obj, sh3)
  | .addCopied obj => (.addBytes obj, sh.atomicAdd obj .CopiedObjects 1)
  | .addBytes obj => (.recv, sh.atomicAdd obj .BytesTransferred obj.Size)
  | .addErrors obj _ => (.recv, sh.atomicAdd obj .Errors 1)
  | .recv => (.recv, sh)
  | .exited => (.exited, sh)

/-- Program counter of the goroutine that runs `Mirror`. -/
inductive MainPc where
  /-- About to call `sourceClient.ListObjects` [52]. -/
  | start
  /-- About to store `TotalObjects` and make the channel [57-61]. -/
  | storeTotal (objects : List ObjectInfo)
  /-- At the test `i < s.config.Workers` of the spawn loop [64]. -/
  | spawn (i : Int) (objects : List ObjectInfo)
  /-- In the send loop with `rest` still to send; closes the channel after it [70-73]. -/
  | send (rest : List ObjectInfo)
  /-- In `wg.Wait()` [76]. -/
  | wait
  /-- Returned `(nil, err)` [54] or `(&s.stats, nil)` [78]. -/
  | returned (result : Except GoError Stats)

/-- The state of a `Mirror` call: shared memory, the buffered channel
`objectChan`, the wait group counter, and the program counters. -/
structure Machine (σ : Type) where
  sh : Shared σ
  chanBuf : List ObjectInfo
  chanCap : Nat
  chanClosed : Bool
  wg : Int
  main : MainPc
  workers : List WorkerPc

/-- The state on entry to `Mirror`. -/
def Machine.init {σ : Type} (s : Service σ) (w : σ) : Machine σ :=
  { sh := { world := w, stats := s.stats, trace := [] },
    chanBuf := [], chanCap := 0, chanClosed := false, wg := 0, main := .start, workers := [] }

/-- One step of the goroutine running `Mirror`; the state is unchanged when
it is blocked (a send on a full channel, `wg.Wait()` with a positive counter)
or has returned. -/
def mainStep {σ : Type} (s : Service σ) (m : Machine σ) : Machine σ :=
  match m.main with
  | .start =>
    let list := s.sourceClient.ListObjects m.sh.world s.config.Source.Prefix
    let sh1 : Shared σ :=
      { m.sh with world := list.2,
                  trace := m.sh.trace ++ [.listObjects s.config.Source.Prefix list.1] }
    match list.1 with
    | .error err =>
      { m with sh := sh1, main := .returned (.error (.wrap "failed to list source objects: " err)) }
    | .ok objects => { m with sh := sh1, main := .storeTotal objects }
  | .storeTotal objects =>
    { m with sh := { m.sh with stats := { m.sh.stats with TotalObjects := (objects.length : Int) } },
             chanCap := objects.length, main := .spawn 0 objects }
  | .spawn i objects =>
    if i < s.config.Workers then
      { m with wg := m.wg + 1, workers := m.workers ++ [.recv], main := .spawn (i + 1) objects }
    else { m with main := .send objects }
  | .send (obj :: rest) =>
    if m.chanBuf.length < m.chanCap then { m with chanBuf := m.chanBuf ++ [obj], main := .send rest }
    else m
  | .send [] => { m with chanClosed := true, main := .wait }
  | .wait => if m.wg = 0 then { m with main := .returned (.ok m.sh.stats) } else m
  | .returned _ => m

/-- One step of worker number `i`; the state is unchanged when there is no
such worker, when it is blocked on an empty open channel, or has exited. -/
def workerStep {σ : Type} (s : Service σ) (i : Nat) (m : Machine σ) : Machine σ :=
  match m.workers[i]? with
  | none => m
  | some .exited => m
  | some .recv =>
    match m.chanBuf with
    | obj :: rest => { m with chanBuf := rest, workers := m.workers.set i (.callHead obj) }
    | [] =>
      if m.chanClosed then { m with wg := m.wg - 1, workers := m.workers.set i .exited } else m
  | some pc =>
    let next := jobStep s pc m.sh
    { m with sh := next.2, workers := m.workers.set i next.1 }

/-- One step of the machine: thread `0` is the goroutine running `Mirror`,
thread `i + 1` is worker number `i`. -/
def Machine.step {σ : Type} (s : Service σ) (tid : Nat) (m : Machine σ) : Machine σ :=
  match tid with
  | 0 => mainStep s m
  | i + 1 => workerStep s i m

/-- Run the machine under a schedule. -/
def Machine.exec {σ : Type} (s : Service σ) (sched : List Nat) (m : Machine σ) : Machine σ :=
  sched.foldl (fun m tid => m.step s tid) m

/-- The machine reached by a `Mirror` call on service `s` in world `w` under `sched`. -/
def run {σ : Type} (s : Service σ) (w : σ) (sched : List Nat) : Machine σ :=
  Machine.exec s sched (Machine.init s w)

/-- `(*Service).Mirror`: the pair `(*Stats, error)` it returns under the
schedule `sched`, or `none` while it has not returned. -/
def Mirror {σ : Type} (s : Service σ) (w : σ) (sched : List Nat) : Option (Except GoError Stats) :=
  match (run s w sched).main with
  | .returned result => some result
  | _ => none

/-! ## The transitions of the machine, one by one

A relational reading of `Machine.step`, used in the proofs. -/

/-- The enabled transitions of `Machine.step`, spelled out on explicit states. -/
inductive Step {σ : Type} (s : Service σ) : Machine σ → Machine σ → Prop where
  | listErr {world w : σ} {stats : Stats} {trace : List Event} {cb : List ObjectInfo} {cap : Nat}
      {cl : Bool} {wg : Int} {ws : List WorkerPc} {err : GoError}
      (hcall : s.sourceClient.ListObjects world s.config.Source.Prefix = (.error err, w)) :
      Step s ⟨⟨world, stats, trace⟩, cb, cap, cl, wg, .start, ws⟩
        ⟨⟨w, stats, trace ++ [.listObjects s.config.Source.Prefix (.error err)]⟩, cb, cap, cl, wg,
          .returned (.error (.wrap "failed to list source objects: " err)), ws⟩
  | listOk {world w : σ} {stats : Stats} {trace : List Event} {cb : List ObjectInfo} {cap : Nat}
      {cl : Bool} {wg : Int} {ws : List WorkerPc} {objects : List ObjectInfo}
      (hcall : s.sourceClient.ListObjects world s.config.Source.Prefix = (.ok objects, w)) :
      Step s ⟨⟨world, stats, trace⟩, cb, cap, cl, wg, .start, ws⟩
        ⟨⟨w, stats, trace ++ [.listObjects s.config.Source.Prefix (.ok objects)]⟩, cb, cap, cl, wg,
          .storeTotal objects, ws⟩
  | storeTotal {world : σ} {stats : Stats} {trace : List Event} {cb : List ObjectInfo} {cap : Nat}
      {cl : Bool} {wg : Int} {ws : List WorkerPc} {objects : List ObjectInfo} :
      Step s ⟨⟨world, stats, trace⟩, cb, cap, cl, wg, .storeTotal objects, ws⟩
        ⟨⟨world, { stats with TotalObjects := (objects.length : Int) }, trace⟩, cb, objects.length,
          cl, wg, .spawn 0 objects, ws⟩
  | spawnMore {sh : Shared σ} {cb : List ObjectInfo} {cap : Nat}
      {cl : Bool} {wg : Int} {ws : List WorkerPc} {i : Int} {objects : List ObjectInfo}
      (hi : i < s.config.Workers) :
      Step s ⟨sh, cb, cap, cl, wg, .spawn i objects, ws⟩
        ⟨sh, cb, cap, cl, wg + 1, .spawn (i + 1) objects, ws ++ [.recv]⟩
  | spawnDone {sh : Shared σ} {cb : List ObjectInfo} {cap : Nat}
      {cl : Bool} {wg : Int} {ws : List WorkerPc} {i : Int} {objects : List ObjectInfo}
      (hi : ¬ i < s.config.Workers) :
      Step s ⟨sh, cb, cap, cl, wg, .spawn i objects, ws⟩ ⟨sh, cb, cap, cl, wg, .send objects, ws⟩
  | sendOne {sh : Shared σ} {cb : List ObjectInfo} {cap : Nat}
      {cl : Bool} {wg : Int} {ws : List WorkerPc} {obj : ObjectInfo} {rest : List ObjectInfo}
      (hcap : cb.length < cap) :
      Step s ⟨sh, cb, cap, cl, wg, .send (obj :: rest), ws⟩
        ⟨sh, cb ++ [obj], cap, cl, wg, .send rest, ws⟩
  | closeChan {sh : Shared σ} {cb : List ObjectInfo} {cap : Nat}
      {cl : Bool} {wg : Int} {ws : List WorkerPc} :
      Step s ⟨sh, cb, cap, cl, wg, .send [], ws⟩ ⟨sh, cb, cap, true, wg, .wait, ws⟩
  | waitDone {sh : Shared σ} {cb : List ObjectInfo} {cap : Nat} {cl : Bool} {ws : List WorkerPc} :
      Step s ⟨sh, cb, cap, cl, 0, .wait, ws⟩ ⟨sh, cb, cap, cl, 0, .returned (.ok sh.stats), ws⟩
  | recvObj {sh : Shared σ} {cap : Nat} {cl : Bool} {wg : Int} {main : MainPc}
      {l1 l2 : List WorkerPc} {obj : ObjectInfo} {rest : List ObjectInfo} :
      Step s ⟨sh, obj :: rest, cap, cl, wg, main, l1 ++ .recv :: l2⟩
        ⟨sh, rest, cap, cl, wg, main, l1 ++ .callHead obj :: l2⟩
  | recvClosed {sh : Shared σ} {cap : Nat} {wg : Int} {main : MainPc} {l1 l2 : List WorkerPc} :
      Step s ⟨sh, [], cap, true, wg, main, l1 ++ .recv :: l2⟩
        ⟨sh, [], cap, true, wg - 1, main, l1 ++ .exited :: l2⟩
  | headSkip {world w : σ} {stats : Stats} {trace : List Event} {cb : List ObjectInfo} {cap : Nat}
      {cl : Bool} {wg : Int} {main : MainPc} {l1 l2 : List WorkerPc} {obj : ObjectInfo}
      {res : Except GoError ObjectInfo}
      (hcall : s.targetClient.HeadObject world (targetKey s.config obj) = (res, w))
      (hsame : sameETag res obj = true) :
      Step s ⟨⟨world, stats, trace⟩, cb, cap, cl, wg, main, l1 ++ .callHead obj :: l2⟩
        ⟨⟨w, stats, trace ++ [.headObject obj (targetKey s.config obj) res]⟩, cb, cap, cl, wg, main,
          l1 ++ .addSkipped obj :: l2⟩
  | headDry {world w : σ} {stats : Stats} {trace : List Event} {cb : List ObjectInfo} {cap : Nat}
      {cl : Bool} {wg : Int} {main : MainPc} {l1 l2 : List WorkerPc} {obj : ObjectInfo}
      {res : Except GoError ObjectInfo}
      (hcall : s.targetClient.HeadObject world (targetKey s.config obj) = (res, w))
      (hsame : sameETag res obj = false) (hdry : s.config.DryRun = true) :
      Step s ⟨⟨world, stats, trace⟩, cb, cap, cl, wg, main, l1 ++ .callHead obj :: l2⟩
        ⟨⟨w, stats, trace ++ [.headObject obj (targetKey s.config obj) res]⟩, cb, cap, cl, wg, main,
          l1 ++ .addCopiedDry obj :: l2⟩
  | headCopy {world w : σ} {stats : Stats} {trace : List Event} {cb : List ObjectInfo} {cap : Nat}
      {cl : Bool} {wg : Int} {main : MainPc} {l1 l2 : List WorkerPc} {obj : ObjectInfo}
      {res : Except GoError ObjectInfo}
      (hcall : s.targetClient.HeadObject world (targetKey s.config obj) = (res, w))
      (hsame : sameETag res obj = false) (hdry : s.config.DryRun = false) :
      Step s ⟨⟨world, stats, trace⟩, cb, cap, cl, wg, main, l1 ++ .callHead obj :: l2⟩
        ⟨⟨w, stats, trace ++ [.headObject obj (targetKey s.config obj) res]⟩, cb, cap, cl, wg, main,
          l1 ++ .callGet obj :: l2⟩
  | addSkipped {world : σ} {stats : Stats} {trace : List Event} {cb : List ObjectInfo} {cap : Nat}
      {cl : Bool} {wg : Int} {main : MainPc} {l1 l2 : List WorkerPc} {obj : ObjectInfo} :
      Step s ⟨⟨world, stats, trace⟩, cb, cap, cl, wg, main, l1 ++ .addSkipped obj :: l2⟩
        ⟨⟨world, stats.atomicAdd .SkippedObjects 1, trace ++ [.atomicAdd obj .SkippedObjects 1]⟩,
          cb, cap, cl, wg, main, l1 ++ .recv :: l2⟩
  | addCopiedDry {world : σ} {stats : Stats} {trace : List Event} {cb : List ObjectInfo} {cap : Nat}
      {cl : Bool} {wg : Int} {main : MainPc} {l1 l2 : List WorkerPc} {obj : ObjectInfo} :
      Step s ⟨⟨world, stats, trace⟩, cb, cap, cl, wg, main, l1 ++ .addCopiedDry obj :: l2⟩
        ⟨⟨world, stats.atomicAdd .CopiedObjects 1, trace ++ [.atomicAdd obj .CopiedObjects 1]⟩,
          cb, cap, cl, wg, main, l1 ++ .recv :: l2⟩
  | getErr {world w : σ} {stats : Stats} {trace : List Event} {cb : List ObjectInfo} {cap : Nat}
      {cl : Bool} {wg : Int} {main : MainPc} {l1 l2 : List WorkerPc} {obj : ObjectInfo}
      {err : GoError}
      (hcall : s.sourceClient.GetObject world obj.Key = (.error err, w)) :
      Step s ⟨⟨world, stats, trace⟩, cb, cap, cl, wg, main, l1 ++ .callGet obj :: l2⟩
        ⟨⟨w, stats, trace ++ [.getObject obj obj.Key (.error err)]⟩, cb, cap, cl, wg, main,
          l1 ++ .addErrors obj (.wrap "failed to get object: " err) :: l2⟩
  | getOk {world w : σ} {stats : Stats} {trace : List Event} {cb : List ObjectInfo} {cap : Nat}
      {cl : Bool} {wg : Int} {main : MainPc} {l1 l2 : List WorkerPc} {obj : ObjectInfo}
      {body : Body}
      (hcall : s.sourceClient.GetObject world obj.Key = (.ok body, w)) :
      Step s ⟨⟨world, stats, trace⟩, cb, cap, cl, wg, main, l1 ++ .callGet obj :: l2⟩
        ⟨⟨w, stats, trace ++ [.getObject obj obj.Key (.ok body)]⟩, cb, cap, cl, wg, main,
          l1 ++ .callPut obj body :: l2⟩
  | putErr {world w : σ} {stats : Stats} {trace : List Event} {cb : List ObjectInfo} {cap : Nat}
      {cl : Bool} {wg : Int} {main : MainPc} {l1 l2 : List WorkerPc} {obj : ObjectInfo}
      {body : Body} {err : GoError}
      (hcall : s.targetClient.PutObject world (targetKey s.config obj) body obj.Size = (some err, w)) :
      Step s ⟨⟨world, stats, trace⟩, cb, cap, cl, wg, main, l1 ++ .callPut obj body :: l2⟩
        ⟨⟨w, stats, trace ++ [.putObject obj (targetKey s.config obj) body obj.Size (some err)]⟩,
          cb, cap, cl, wg, main, l1 ++ .addErrors obj (.wrap "failed to put object: " err) :: l2⟩
  | putOk {world w : σ} {stats : Stats} {trace : List Event} {cb : List ObjectInfo} {cap : Nat}
      {cl : Bool} {wg : Int} {main : MainPc} {l1 l2 : List WorkerPc} {obj : ObjectInfo}
      {body : Body}
      (hcall : s.targetClient.PutObject world (targetKey s.config obj) body obj.Size = (none, w)) :
      Step s ⟨⟨world, stats, trace⟩, cb, cap, cl, wg, main, l1 ++ .callPut obj body :: l2⟩
        ⟨⟨w, stats, trace ++ [.putObject obj (targetKey s.config obj) body obj.Size none]⟩,
          cb, cap, cl, wg, main, l1 ++ .addCopied obj :: l2⟩
  | addCopied {world : σ} {stats : Stats} {trace : List Event} {cb : List ObjectInfo} {cap : Nat}
      {cl : Bool} {wg : Int} {main : MainPc} {l1 l2 : List WorkerPc} {obj : ObjectInfo} :
      Step s ⟨⟨world, stats, trace⟩, cb, cap, cl, wg, main, l1 ++ .addCopied obj :: l2⟩
        ⟨⟨world, stats.atomicAdd .CopiedObjects 1, trace ++ [.atomicAdd obj .CopiedObjects 1]⟩,
          cb, cap, cl, wg, main, l1 ++ .addBytes obj :: l2⟩
  | addBytes {world : σ} {stats : Stats} {trace : List Event} {cb : List ObjectInfo} {cap : Nat}
      {cl : Bool} {wg : Int} {main : MainPc} {l1 l2 : List WorkerPc} {obj : ObjectInfo} :
      Step s ⟨⟨world, stats, trace⟩, cb, cap, cl, wg, main, l1 ++ .addBytes obj :: l2⟩
        ⟨⟨world, stats.atomicAdd .BytesTransferred obj.Size,
            trace ++ [.atomicAdd obj .BytesTransferred obj.Size]⟩,
          cb, cap, cl, wg, main, l1 ++ .recv :: l2⟩
  | addErrors {world : σ} {stats : Stats} {trace : List Event} {cb : List ObjectInfo} {cap : Nat}
      {cl : Bool} {wg : Int} {main : MainPc} {l1 l2 : List WorkerPc} {obj : ObjectInfo}
      {err : GoError} :
      Step s ⟨⟨world, stats, trace⟩, cb, cap, cl, wg, main, l1 ++ .addErrors obj err :: l2⟩
        ⟨⟨world, stats.atomicAdd .Errors 1, trace ++ [.atomicAdd obj .Errors 1]⟩,
          cb, cap, cl, wg, main, l1 ++ .recv :: l2⟩

/-- The goroutine running `Mirror` cannot move: a send on a full channel,
`wg.Wait()` with a non-zero counter, or it has returned. -/
def Machine.mainBlocked {σ : Type} (m : Machine σ) : Prop :=
  match m.main with
  | .send (_ :: _) => ¬ m.chanBuf.length < m.chanCap
  | .wait => m.wg ≠ 0
  | .returned _ => True
  | _ => False

/-- Worker `i` cannot move: it does not exist, has exited, or waits on an
empty channel that is still open. -/
def Machine.workerBlocked {σ : Type} (i : Nat) (m : Machine σ) : Prop :=
  match m.workers[i]? with
  | none => True
  | some .exited => True
  | some .recv => m.chanBuf = [] ∧ m.chanClosed = false
  | _ => False

/-! ## Reading a history

The objects of the events of one kind, in the order of the history. -/

/-- The object of a `HeadObject` call. -/
@[simp] def Event.headOf : Event → Option ObjectInfo
  | .headObject o _ _ => some o
  | _ => none

/-- The object of a `HeadObject` call whose answer passes the skip test. -/
@[simp] def Event.skipOf : Event → Option ObjectInfo
  | .headObject o _ r => if sameETag r o then some o else none
  | _ => none

/-- The object of a `HeadObject` call whose answer fails the skip test. -/
@[simp] def Event.copyOf : Event → Option ObjectInfo
  | .headObject o _ r => if sameETag r o then none else some o
  | _ => none

/-- The object of a `GetObject` call. -/
@[simp] def Event.getOf : Event → Option ObjectInfo
  | .getObject o _ _ => some o
  | _ => none

/-- The object of a `GetObject` call that succeeded. -/
@[simp] def Event.getOkOf : Event → Option ObjectInfo
  | .getObject o _ (.ok _) => some o
  | _ => none

/-- The object of a `GetObject` call that failed. -/
@[simp] def Event.getFailOf : Event → Option ObjectInfo
  | .getObject o _ (.error _) => some o
  | _ => none

/-- The object of a `PutObject` call. -/
@[simp] def Event.putOf : Event → Option ObjectInfo
  | .putObject o _ _ _ _ => some o
  | _ => none

/-- The object of a `PutObject` call that succeeded. -/
@[simp] def Event.putOkOf : Event → Option ObjectInfo
  | .putObject o _ _ _ none => some o
  | _ => none

/-- The object of a `PutObject` call that failed. -/
@[simp] def Event.putFailOf : Event → Option ObjectInfo
  | .putObject o _ _ _ (some _) => some o
  | _ => none

/-- The object on whose behalf counter `c` was incremented. -/
@[simp] def Event.addOf (c : Counter) : Event → Option ObjectInfo
  | .atomicAdd o c' _ => if c' = c then some o else none
  | _ => none

/-- The objects looked up with `HeadObject`. -/
def headObjs (tr : List Event) : List ObjectInfo := tr.filterMap Event.headOf

/-- The objects the skip decision skipped. -/
def skipHeads (tr : List Event) : List ObjectInfo := tr.filterMap Event.skipOf

/-- The objects the skip decision sent to the copy path. -/
def copyHeads (tr : List Event) : List ObjectInfo := tr.filterMap Event.copyOf

/-- The objects fetched with `GetObject`. -/
def getObjs (tr : List Event) : List ObjectInfo := tr.filterMap Event.getOf

/-- The objects whose `GetObject` succeeded. -/
def getOks (tr : List Event) : List ObjectInfo := tr.filterMap Event.getOkOf

/-- The objects whose `GetObject` failed. -/
def getFails (tr : List Event) : List ObjectInfo := tr.filterMap Event.getFailOf

/-- The objects stored with `PutObject`. -/
def putObjs (tr : List Event) : List ObjectInfo := tr.filterMap Event.putOf

/-- The objects whose `PutObject` succeeded. -/
def putOks (tr : List Event) : List ObjectInfo := tr.filterMap Event.putOkOf

/-- The objects whose `PutObject` failed. -/
def putFails (tr : List Event) : List ObjectInfo := tr.filterMap Event.putFailOf

/-- The objects for which counter `c` was incremented. -/
def adds (c : Counter) (tr : List Event) : List ObjectInfo := tr.filterMap (Event.addOf c)

/-- The object of a worker about to call `HeadObject`. -/
@[simp] def WorkerPc.headOf : WorkerPc → Option ObjectInfo
  | .callHead o => some o
  | _ => none
/-- The object of a worker about to count a skip. -/
@[simp] def WorkerPc.skippedOf : WorkerPc → Option ObjectInfo
  | .addSkipped o => some o
  | _ => none
/-- The object of a worker about to count a dry-run copy. -/
@[simp] def WorkerPc.dryOf : WorkerPc → Option ObjectInfo
  | .addCopiedDry o => some o
  | _ => none
/-- The object of a worker about to call `GetObject`. -/
@[simp] def WorkerPc.getOf : WorkerPc → Option ObjectInfo
  | .callGet o => some o
  | _ => none
/-- The object of a worker about to call `PutObject`. -/
@[simp] def WorkerPc.putOf : WorkerPc → Option ObjectInfo
  | .callPut o _ => some o
  | _ => none
/-- The object of a worker about to count a copy. -/
@[simp] def WorkerPc.copiedOf : WorkerPc → Option ObjectInfo
  | .addCopied o => some o
  | _ => none
/-- The object of a worker about to count the bytes of a copy. -/
@[simp] def WorkerPc.bytesOf : WorkerPc → Option ObjectInfo
  | .addBytes o => some o
  | _ => none
/-- The object of a worker about to count an error. -/
@[simp] def WorkerPc.errorsOf : WorkerPc → Option ObjectInfo
  | .addErrors o _ => some o
  | _ => none
/-- The worker has not exited. -/
@[simp] def WorkerPc.live : WorkerPc → Bool
  | .exited => false
  | _ => true

/-- The listed objects not yet sent on the channel. -/
@[simp] def MainPc.unsent : MainPc → List ObjectInfo
  | .storeTotal objs => objs
  | .spawn _ objs => objs
  | .send rest => rest
  | _ => []

/-- The listing succeeded. -/
@[simp] def MainPc.begun : MainPc → Bool
  | .start => false
  | .returned (.error _) => false
  | _ => true

/-! ## Invariants of the machine -/

/-- Invariant of the job flow, for a run whose listing is `L`. -/
structure Flow {σ : Type} (L : List ObjectInfo) (m : Machine σ) : Prop where
  begun : m.main.begun = true
  disp : ∀ x, (headObjs m.sh.trace).count x + (m.workers.filterMap WorkerPc.headOf).count x
      + m.chanBuf.count x + m.main.unsent.count x = L.count x
  dispLen : (headObjs m.sh.trace).length + (m.workers.filterMap WorkerPc.headOf).length
      + m.chanBuf.length + m.main.unsent.length = L.length
  skip : ∀ x, (skipHeads m.sh.trace).count x
      = (adds .SkippedObjects m.sh.trace).count x + (m.workers.filterMap WorkerPc.skippedOf).count x
  put : ∀ x, (getOks m.sh.trace).count x
      = (putObjs m.sh.trace).count x + (m.workers.filterMap WorkerPc.putOf).count x
  err : ∀ x, (getFails m.sh.trace).count x + (putFails m.sh.trace).count x
      = (adds .Errors m.sh.trace).count x + (m.workers.filterMap WorkerPc.errorsOf).count x

/-- Invariant of a dry run. -/
structure Dry {σ : Type} (m : Machine σ) : Prop where
  dry : ∀ x, (copyHeads m.sh.trace).count x
      = (adds .CopiedObjects m.sh.trace).count x + (m.workers.filterMap WorkerPc.dryOf).count x
  idle : (getObjs m.sh.trace).length + (putObjs m.sh.trace).length
      + (adds .Errors m.sh.trace).length + (adds .BytesTransferred m.sh.trace).length
      + (m.workers.filterMap WorkerPc.getOf).length + (m.workers.filterMap WorkerPc.putOf).length
      + (m.workers.filterMap WorkerPc.copiedOf).length + (m.workers.filterMap WorkerPc.bytesOf).length
      + (m.workers.filterMap WorkerPc.errorsOf).length = 0

/-- Invariant of a run that is not a dry run. -/
structure Wet {σ : Type} (m : Machine σ) : Prop where
  noDry : (m.workers.filterMap WorkerPc.dryOf).length = 0
  get : ∀ x, (copyHeads m.sh.trace).count x
      = (getObjs m.sh.trace).count x + (m.workers.filterMap WorkerPc.getOf).count x
  cop : ∀ x, (putOks m.sh.trace).count x
      = (adds .CopiedObjects m.sh.trace).count x + (m.workers.filterMap WorkerPc.copiedOf).count x
  byt : ∀ x, (adds .CopiedObjects m.sh.trace).count x
      = (adds .BytesTransferred m.sh.trace).count x + (m.workers.filterMap WorkerPc.bytesOf).count x

/-- The stages of `Mirror`, numbered. -/
@[simp] def MainPc.phase : MainPc → Nat
  | .start => 0
  | .storeTotal _ => 1
  | .spawn _ _ => 2
  | .send _ => 3
  | .wait => 4
  | .returned _ => 5

/-- The listing held by `Mirror` before the send loop. -/
@[simp] def MainPc.listing : MainPc → Option (List ObjectInfo)
  | .storeTotal objs => some objs
  | .spawn _ objs => some objs
  | _ => none

/-- The counters are those of the history (fresh service). -/
structure Counted {σ : Type} (L : List ObjectInfo) (m : Machine σ) : Prop where
  copied : m.sh.stats.CopiedObjects = wrapInt64 (adds .CopiedObjects m.sh.trace).length
  skipped : m.sh.stats.SkippedObjects = wrapInt64 (adds .SkippedObjects m.sh.trace).length
  errors : m.sh.stats.Errors = wrapInt64 (adds .Errors m.sh.trace).length
  bytes : m.sh.stats.BytesTransferred
      = wrapInt64 (((adds .BytesTransferred m.sh.trace).map ObjectInfo.Size).sum)
  total : 2 ≤ m.main.phase → m.sh.stats.TotalObjects = L.length
  cap : 2 ≤ m.main.phase → m.chanCap = L.length
  listed : ∀ objs, m.main.listing = some objs → objs = L

/-- The number `n` of workers started fits the stage of `Mirror`. -/
def MainPc.poolOk (W : Int) (n : Nat) : MainPc → Prop
  | .start => n = 0
  | .storeTotal _ => n = 0
  | .spawn i _ => i = n ∧ n ≤ W.toNat
  | _ => n = W.toNat

/-- Invariant of the channel, the wait group and the pool of workers. -/
structure Sync {σ : Type} (s : Service σ) (m : Machine σ) : Prop where
  wg : m.wg = ((m.workers.filter WorkerPc.live).length : Int)
  closed : m.chanClosed = decide (4 ≤ m.main.phase)
  drainedBuf : (m.workers.filter WorkerPc.live).length < m.workers.length → m.chanBuf.length = 0
  drainedPhase : (m.workers.filter WorkerPc.live).length < m.workers.length → 4 ≤ m.main.phase
  pool : m.main.poolOk s.config.Workers m.workers.length
  result : ∀ r, m.main = .returned r →
    r = .ok m.sh.stats ∧ (m.workers.filter WorkerPc.live).length = 0

/-- Everything known about a state after a successful listing `L`. -/
structure Good {σ : Type} (s : Service σ) (L : List ObjectInfo) (m : Machine σ) : Prop where
  begun : m.main.begun = true
  flow : Flow L m
  counted : Counted L m
  sync : Sync s m
  dry : s.config.DryRun = true → Dry m
  wet : s.config.DryRun = false → Wet m

/-- The state after a successful listing, on a fresh service. -/
def Machine.listed {σ : Type} (s : Service σ) (L : List ObjectInfo) (w : σ) : Machine σ :=
  { sh := { world := w, stats := s.stats,
            trace := [.listObjects s.config.Source.Prefix (.ok L)] },
    chanBuf := [], chanCap := 0, chanClosed := false, wg := 0, main := .storeTotal L, workers := [] }

/-- The state after a failed listing. -/
def Machine.failed {σ : Type} (s : Service σ) (err : GoError) (w : σ) : Machine σ :=
  { sh := { world := w, stats := s.stats,
            trace := [.listObjects s.config.Source.Prefix (.error err)] },
    chanBuf := [], chanCap := 0, chanClosed := false, wg := 0,
    main := .returned (.error (.wrap "failed to list source objects: " err)), workers := [] }

/-- The number of steps a worker has left without receiving again. -/
@[simp] def WorkerPc.rank : WorkerPc → Nat
  | .exited => 0
  | .recv => 1
  | .addSkipped _ => 2
  | .addCopiedDry _ => 2
  | .addErrors _ _ => 2
  | .addBytes _ => 2
  | .addCopied _ => 3
  | .callPut _ _ => 4
  | .callGet _ => 5
  | .callHead _ => 6

/-- A bound on the steps `Mirror` has left, counting what it will hand to the workers. -/
@[simp] def MainPc.rank (W : Int) : MainPc → Nat
  | .start => 0
  | .storeTotal objs => 2 * W.toNat + 7 * objs.length + 4
  | .spawn i objs => 2 * (W - i).toNat + 7 * objs.length + 3
  | .send rest => 7 * rest.length + 2
  | .wait => 1
  | .returned _ => 0

/-- A bound on the number of enabled steps left. -/
def Machine.rank {σ : Type} (s : Service σ) (m : Machine σ) : Nat :=
  m.main.rank s.config.Workers + (m.workers.map WorkerPc.rank).sum + 6 * m.chanBuf.length

/-! ## The final state -/

/-- What holds of the state in which `Mirror` has returned after listing `L`. -/
structure Final {σ : Type} (s : Service σ) (L : List ObjectInfo) (m : Machine σ) : Prop where
  workers : m.workers = List.replicate s.config.Workers.toNat .exited
  total : m.sh.stats.TotalObjects = L.length
  copied : m.sh.stats.CopiedObjects = wrapInt64 (adds .CopiedObjects m.sh.trace).length
  skipped : m.sh.stats.SkippedObjects = wrapInt64 (adds .SkippedObjects m.sh.trace).length
  errors : m.sh.stats.Errors = wrapInt64 (adds .Errors m.sh.trace).length
  bytes : m.sh.stats.BytesTransferred
      = wrapInt64 (((adds .BytesTransferred m.sh.trace).map ObjectInfo.Size).sum)
  heads : 1 ≤ s.config.Workers → (headObjs m.sh.trace).Perm L
  headsLe : (headObjs m.sh.trace).length ≤ L.length
  headsSub : (headObjs m.sh.trace).Subperm L
  skip : (adds .SkippedObjects m.sh.trace).Perm (skipHeads m.sh.trace)
  dry : s.config.DryRun = true →
    (adds .CopiedObjects m.sh.trace).Perm (copyHeads m.sh.trace) ∧ getObjs m.sh.trace = []
      ∧ putObjs m.sh.trace = [] ∧ adds .Errors m.sh.trace = []
      ∧ adds .BytesTransferred m.sh.trace = []
  wet : s.config.DryRun = false →
    (getObjs m.sh.trace).Perm (copyHeads m.sh.trace) ∧ (putObjs m.sh.trace).Perm (getOks m.sh.trace)
      ∧ (adds .Errors m.sh.trace).Perm (getFails m.sh.trace ++ putFails m.sh.trace)
      ∧ (adds .CopiedObjects m.sh.trace).Perm (putOks m.sh.trace)
      ∧ (adds .BytesTransferred m.sh.trace).Perm (putOks m.sh.trace)

/-! ## Properties as the specification words them -/

/-- The history of a `Mirror` call under a schedule. -/
def history {σ : Type} (s : Service σ) (w : σ) (sched : List Nat) : List Event :=
  (run s w sched).sh.trace

/-- Exact bytes accounting of one run, as the specification words it:
`BytesTransferred` is the sum of the sizes of the objects fetched and stored. -/
def BytesExact {σ : Type} (s : Service σ) (w : σ) (sched : List Nat) : Prop :=
  ∀ st, Mirror s w sched = some (.ok st) →
    st.BytesTransferred = ((putOks (history s w sched)).map ObjectInfo.Size).sum

/-- The key an event must carry according to target-prefix resolution. -/
def Event.keyOk (cfg : Config) : Event → Prop
  | .headObject obj key _ => key = cfg.Target.Prefix ++ obj.Key
  | .putObject obj key _ size _ => key = cfg.Target.Prefix ++ obj.Key ∧ size = obj.Size
  | .getObject obj key _ => key = obj.Key
  | _ => True

/-- A storage configuration as the specification describes a valid one. -/
def StorageConfig.wellFormed (cfg : StorageConfig) : Prop :=
  (cfg.Type' = "s3" ∨ cfg.Type' = "minio") ∧ cfg.Bucket ≠ ""
    ∧ (cfg.Type' = "minio" → cfg.Endpoint ≠ "" ∧ cfg.AccessKeyID ≠ "" ∧ cfg.SecretAccessKey ≠ "")

/-! ## `copyObject` and `worker` run alone -/

/-- The program counter at which `worker` continues when `copyObject` returned `err`. -/
def afterCopyObject (obj : ObjectInfo) : Option GoError → WorkerPc
  | none => .recv
  | some err => .addErrors obj err

/-- The program counters inside `copyObject`. -/
def WorkerPc.inCopyObject : WorkerPc → Bool
  | .recv => false
  | .addErrors _ _ => false
  | .exited => false
  | _ => true

/-- The program counters inside one iteration of the loop of `worker`. -/
def WorkerPc.inIteration : WorkerPc → Bool
  | .recv => false
  | .exited => false
  | _ => true

/-- Run `jobStep` while the program counter is `inside`, for at most `fuel` steps. -/
def jobRun {σ : Type} (s : Service σ) (inside : WorkerPc → Bool) :
    Nat → WorkerPc → Shared σ → WorkerPc × Shared σ
  | 0, pc, sh => (pc, sh)
  | fuel + 1, pc, sh =>
    if inside pc then jobRun s inside fuel (jobStep s pc sh).1 (jobStep s pc sh).2 else (pc, sh)

/-! ## An in-memory storage model with stable fingerprints

The storage model of the idempotence property: what `PutObject` stores at a
key is what `HeadObject` later reports there, with the fingerprint of the
stored content as ETag. -/

/-- Two buckets held in memory, the source listing, and a fault plan: every
storage call consumes one entry of `faults` and fails when it is `true`
(an empty plan means no failure). -/
structure MemStore where
  listing : List ObjectInfo
  source : String → Option Body
  target : String → Option Body
  faults : List Bool

/-- Consume one entry of the fault plan. -/
def MemStore.next (st : MemStore) : Bool × MemStore :=
  match st.faults with
  | [] => (false, st)
  | f :: rest => (f, { st with faults := rest })

/-- A client of one bucket of the store. `fp` is the fingerprint the provider
reports as ETag for a content. -/
def memClient (fp : Body → String) (bucket : MemStore → String → Option Body)
    (store : MemStore → String → Body → MemStore) (name : String) : Client MemStore where
  ListObjects st pfx :=
    if st.next.1 then (.error (.new "injected fault"), st.next.2)
    else (.ok (st.listing.filter (fun o => pfx.data.isPrefixOf o.Key.data)), st.next.2)
  GetObject st key :=
    if st.next.1 then (.error (.new "injected fault"), st.next.2)
    else match bucket st key with
      | some body => (.ok body, st.next.2)
      | none => (.error (.new "NoSuchKey"), st.next.2)
  PutObject st key body _ :=
    if st.next.1 then (some (.new "injected fault"), st.next.2)
    else (none, store st.next.2 key body)
  HeadObject st key :=
    if st.next.1 then (.error (.new "injected fault"), st.next.2)
    else match bucket st key with
      | some body => (.ok ⟨key, body.length, fp body, ""⟩, st.next.2)
      | none => (.error (.new "NotFound"), st.next.2)
  CopyObject st sourceKey targetKey :=
    if st.next.1 then (some (.new "injected fault"), st.next.2)
    else match bucket st sourceKey with
      | some body => (none, store st.next.2 targetKey body)
      | none => (some (.new "NoSuchKey"), st.next.2)
  GetBucket := name

/-- The client of the source bucket. -/
def memSource (fp : Body → String) : Client MemStore :=
  memClient fp (fun st => st.source)
    (fun st key body => { st with source := fun k => if k = key then some body else st.source k })
    "source"

/-- The client of the target bucket: a successful `PutObject` at a key makes a
later `HeadObject` at that key answer with the fingerprint of the stored body. -/
def memTarget (fp : Body → String) : Client MemStore :=
  memClient fp (fun st => st.target)
    (fun st key body => { st with target := fun k => if k = key then some body else st.target k })
    "target"

/-- The target holds, at the resolved key of `o`, a content whose fingerprint is the ETag of `o`. -/
def Synced (fp : Body → String) (cfg : Config) (target : String → Option Body) (o : ObjectInfo) :
    Prop :=
  ∃ b, target (targetKey cfg o) = some b ∧ fp b = o.ETag

/-- The object a worker holds. -/
@[simp] def WorkerPc.obj : WorkerPc → Option ObjectInfo
  | .recv => none
  | .exited => none
  | .callHead o => some o
  | .addSkipped o => some o
  | .addCopiedDry o => some o
  | .callGet o => some o
  | .callPut o _ => some o
  | .addCopied o => some o
  | .addBytes o => some o
  | .addErrors o _ => some o

/-- The content a worker is about to store. -/
@[simp] def WorkerPc.body : WorkerPc → Option (ObjectInfo × Body)
  | .callPut o b => some (o, b)
  | _ => none

/-- Invariant of a run on the in-memory store that started in `st0` with listing `L`. -/
structure Stored (fp : Body → String) (cfg : Config) (st0 : MemStore) (L : List ObjectInfo)
    (m : Machine MemStore) : Prop where
  source : m.sh.world.source = st0.source
  listing : m.sh.world.listing = st0.listing
  unsent : ∀ o ∈ m.main.unsent, o ∈ L
  chan : ∀ o ∈ m.chanBuf, o ∈ L
  held : ∀ pc ∈ m.workers, ∀ o, pc.obj = some o → o ∈ L
  body : ∀ pc ∈ m.workers, ∀ o b, pc.body = some (o, b) → st0.source o.Key = some b
  skipped : ∀ o ∈ skipHeads m.sh.trace, o ∈ L ∧ Synced fp cfg m.sh.world.target o
  put : ∀ o ∈ putOks m.sh.trace, o ∈ L ∧ Synced fp cfg m.sh.world.target o

/-- The store with no failure planned. -/
def MemStore.calm (st : MemStore) : MemStore := { st with faults := [] }

/-- The program counters of a run in which every object is skipped. -/
@[simp] def WorkerPc.quiet : WorkerPc → Bool
  | .recv => true
  | .callHead _ => true
  | .addSkipped _ => true
  | .exited => true
  | _ => false

/-- Invariant of a run on a store that never fails and already holds every listed object. -/
structure Quiet (target : String → Option Body) (L : List ObjectInfo) (m : Machine MemStore) :
    Prop where
  target : m.sh.world.target = target
  faults : m.sh.world.faults = []
  unsent : ∀ o ∈ m.main.unsent, o ∈ L
  chan : ∀ o ∈ m.chanBuf, o ∈ L
  held : ∀ pc ∈ m.workers, pc.quiet = true ∧ ∀ o, pc.obj = some o → o ∈ L
  copy : copyHeads m.sh.trace = []

/-! ## Concrete inputs -/

/-- A stateless source for examples: lists `objs`; `GetObject` fails on key `b.txt`. -/
def exampleSource (objs : List ObjectInfo) : Client Unit where
  ListObjects w _ := (.ok objs, w)
  GetObject w key := (if key = "b.txt" then .error (.new "connection reset") else .ok "data", w)
  PutObject w _ _ _ := (none, w)
  HeadObject w _ := (.error (.new "NotFound"), w)
  CopyObject w _ _ := (none, w)
  GetBucket := "source-bucket"

/-- A stateless target for examples: holds `backup/a.txt` with ETag `abc` and
nothing else; `PutObject` succeeds without effect on later answers. -/
def exampleTarget : Client Unit where
  ListObjects w _ := (.ok [], w)
  GetObject w _ := (.error (.new "NoSuchKey"), w)
  PutObject w _ _ _ := (none, w)
  HeadObject w key :=
    (if key = "backup/a.txt" then .ok ⟨key, 3, "abc", ""⟩ else .error (.new "NotFound"), w)
  CopyObject w _ _ := (none, w)
  GetBucket := "target-bucket"

/-- A stateless target that holds nothing. -/
def emptyTarget : Client Unit where
  ListObjects w _ := (.ok [], w)
  GetObject w _ := (.error (.new "NoSuchKey"), w)
  PutObject w _ _ _ := (none, w)
  HeadObject w _ := (.error (.new "NotFound"), w)
  CopyObject w _ _ := (some (.new "NoSuchKey"), w)
  GetBucket := "target-bucket"

/-- A source whose listing always fails. -/
def brokenSource : Client Unit where
  ListObjects w _ := (.error (.new "AccessDenied"), w)
  GetObject w _ := (.error (.new "NoSuchKey"), w)
  PutObject w _ _ _ := (none, w)
  HeadObject w _ := (.error (.new "NotFound"), w)
  CopyObject w _ _ := (none, w)
  GetBucket := "source-bucket"

/-- An S3 storage configuration. -/
def exampleStorage : StorageConfig :=
  { Type' := "s3", Bucket := "bucket", Region := "us-east-1", Endpoint := "", AccessKeyID := "",
    SecretAccessKey := "", UseSSL := false, Prefix := "" }

/-- A configuration with target prefix `backup/`. -/
def exampleConfig (dryRun : Bool) (workers : Int) : Config :=
  { Source := exampleStorage, Target := { exampleStorage with Prefix := "backup/" },
    Workers := workers, DryRun := dryRun, Verbose := false }

/-- A MinIO storage configuration with the given endpoint. -/
def minioStorage (endpoint : String) : StorageConfig :=
  { Type' := "minio", Bucket := "bucket", Region := "", Endpoint := endpoint,
    AccessKeyID := "key", SecretAccessKey := "secret", UseSSL := false, Prefix := "" }

/-- Vendor SDKs for examples: `LoadDefaultConfig` succeeds, `minio.New` refuses
an endpoint that starts with `http://`. -/
def exampleSDK : SDK String String String where
  LoadDefaultConfig region := .ok region
  NewFromConfig awsCfg := awsCfg
  New endpoint _ _ _ :=
    if "http://".data.isPrefixOf endpoint.data then
      .error (.new "Endpoint url cannot have fully qualified paths.")
    else .ok endpoint

/-- A configuration file with five workers. -/
def exampleFile (_ : String) : Except GoError Config := .ok (exampleConfig false 5)

/-- `a.txt` is already in the target, fetching `b.txt` fails, `c.txt` is copied. -/
def exampleListing : List ObjectInfo :=
  [⟨"a.txt", 3, "abc", ""⟩, ⟨"b.txt", 4, "xyz", ""⟩, ⟨"c.txt", 5, "def", ""⟩]

/-- Two objects of 2^62 bytes each. -/
def hugeListing : List ObjectInfo :=
  [⟨"x.bin", 4611686018427387904, "e1", ""⟩, ⟨"y.bin", 4611686018427387904, "e2", ""⟩]

/-- Round-robin over the main goroutine and two workers. -/
def roundRobin (rounds : Nat) : List Nat := (List.replicate rounds [0, 1, 2]).flatten

/-- An in-memory store: the target already holds `a.txt`; the second storage
call (the first `HeadObject`) fails. -/
def exampleStore : MemStore :=
  { listing := [⟨"a.txt", 2, "#aa", ""⟩, ⟨"b.txt", 2, "#bb", ""⟩],
    source := fun k => if k = "a.txt" then some "aa" else if k = "b.txt" then some "bb" else none,
    target := fun k => if k = "backup/a.txt" then some "aa" else none,
    faults := [false, true] }

/-- The fingerprint used in the example. -/
def exampleFingerprint (b : Body) : String := "#" ++ b

/-! ## The step function takes the transitions -/

theorem split_of_getElem? {α : Type} {ws : List α} {i : Nat} {a : α} (h : ws[i]? = some a) :
    ∃ l1 l2, ws = l1 ++ a :: l2 ∧ ∀ x, ws.set i x = l1 ++ x :: l2 := by
  induction ws generalizing i with
  | nil => simp at h
  | cons b t ih =>
    cases i with
    | zero =>
      simp at h
      exact ⟨[], t, by simp [h], by simp⟩
    | succ j =>
      simp at h
      obtain ⟨l1, l2, h1, h2⟩ := ih h
      exact ⟨b :: l1, l2, by simp [h1], by simp [h2]⟩

theorem mainStep_spec {σ : Type} (s : Service σ) (m : Machine σ) :
    (m.mainBlocked ∧ mainStep s m = m) ∨ Step s m (mainStep s m) := by
  obtain ⟨⟨world, stats, trace⟩, cb, cap, cl, wg, main, ws⟩ := m
  unfold mainStep Machine.mainBlocked
  cases main with
  | start =>
    right
    simp only
    cases hres : (s.sourceClient.ListObjects world s.config.Source.Prefix).1 with
    | error err => exact Step.listErr (Prod.ext hres rfl)
    | ok objects => exact Step.listOk (Prod.ext hres rfl)
  | storeTotal objects => exact Or.inr Step.storeTotal
  | spawn i objects =>
    by_cases hi : i < s.config.Workers
    · simp only [hi, if_true]; exact Or.inr (Step.spawnMore hi)
    · simp only [hi, if_false]; exact Or.inr (Step.spawnDone hi)
  | send rest =>
    cases rest with
    | nil => exact Or.inr Step.closeChan
    | cons obj rest =>
      by_cases hc : cb.length < cap
      · simp only [hc, if_true]; exact Or.inr (Step.sendOne hc)
      · simp only [hc, if_false]; exact Or.inl ⟨not_false, trivial⟩
  | wait =>
    by_cases hwg : wg = 0
    · subst hwg; simp only [if_true]; exact Or.inr Step.waitDone
    · simp only [hwg, if_false]; exact Or.inl ⟨hwg, trivial⟩
  | returned r => exact Or.inl ⟨trivial, rfl⟩

theorem workerStep_spec {σ : Type} (s : Service σ) (i : Nat) (m : Machine σ) :
    (m.workerBlocked i ∧ workerStep s i m = m) ∨ Step s m (workerStep s i m) := by
  obtain ⟨⟨world, stats, trace⟩, cb, cap, cl, wg, main, ws⟩ := m
  unfold workerStep Machine.workerBlocked
  simp only
  cases hpc : ws[i]? with
  | none => exact Or.inl ⟨trivial, rfl⟩
  | some pc =>
    obtain ⟨l1, l2, hw, hset⟩ := split_of_getElem? hpc
    subst hw
    cases pc with
    | exited => exact Or.inl ⟨trivial, rfl⟩
    | recv =>
      simp only
      cases cb with
      | nil =>
        cases cl with
        | true => simp only [if_true, hset]; exact Or.inr Step.recvClosed
        | false => exact Or.inl ⟨⟨rfl, rfl⟩, rfl⟩
      | cons obj rest => simp only [hset]; exact Or.inr Step.recvObj
    | callHead obj =>
      right
      simp only [hset, jobStep]
      cases hsame : sameETag (s.targetClient.HeadObject world (targetKey s.config obj)).1 obj with
      | true => exact Step.headSkip rfl hsame
      | false =>
        cases hdry : s.config.DryRun with
        | true => exact Step.headDry rfl hsame hdry
        | false => exact Step.headCopy rfl hsame hdry
    | addSkipped obj => simp only [hset, jobStep]; exact Or.inr Step.addSkipped
    | addCopiedDry obj => simp only [hset, jobStep]; exact Or.inr Step.addCopiedDry
    | callGet obj =>
      right
      simp only [hset, jobStep]
      cases hres : (s.sourceClient.GetObject world obj.Key).1 with
      | error err => exact Step.getErr (Prod.ext hres rfl)
      | ok body => exact Step.getOk (Prod.ext hres rfl)
    | callPut obj body =>
      right
      simp only [hset, jobStep]
      cases hres : (s.targetClient.PutObject world (targetKey s.config obj) body obj.Size).1 with
      | some err => exact Step.putErr (Prod.ext hres rfl)
      | none => exact Step.putOk (Prod.ext hres rfl)
    | addCopied obj => simp only [hset, jobStep]; exact Or.inr Step.addCopied
    | addBytes obj => simp only [hset, jobStep]; exact Or.inr Step.addBytes
    | addErrors obj err => simp only [hset, jobStep]; exact Or.inr Step.addErrors

theorem step_sound {σ : Type} (s : Service σ) (tid : Nat) (m : Machine σ) :
    m.step s tid = m ∨ Step s m (m.step s tid) := by
  cases tid with
  | zero => exact (mainStep_spec s m).imp And.right id
  | succ i => exact (workerStep_spec s i m).imp And.right id

/-! ## The invariants are preserved -/

theorem Flow_step {σ : Type} {s : Service σ} {L : List ObjectInfo} {m m' : Machine σ}
    (h : Flow L m) (st : Step s m m') : Flow L m' := by
  cases st <;> obtain ⟨hb, h1, h2, h3, h4, h5⟩ := h <;>
    first
    | (simp only [MainPc.begun, Bool.false_eq_true] at hb; done)
    | (constructor <;>
        first
        | exact hb
        | rfl
        | (intro x
           have e1 := h1 x
           have e3 := h3 x
           have e4 := h4 x
           have e5 := h5 x
           simp only [headObjs, skipHeads, getOks, putObjs, getFails, putFails, adds, List.count_cons,
             List.count_nil, List.count_append, List.append_nil,
             List.filterMap_append, List.filterMap_cons, List.filterMap_nil, Event.headOf, Event.skipOf,
             Event.getOkOf, Event.putOf, Event.getFailOf, Event.putFailOf, Event.addOf,
             WorkerPc.headOf, WorkerPc.skippedOf, WorkerPc.putOf, WorkerPc.errorsOf, MainPc.unsent,
             reduceCtorEq, if_false, if_true, beq_iff_eq] at e1 e3 e4 e5 ⊢
           try simp only [*, reduceCtorEq, if_false, if_true, Bool.false_eq_true, List.count_nil,
             List.count_cons, beq_iff_eq] at e1 e3 e4 e5 ⊢
           all_goals ((try split_ifs at *) <;> omega))
        | (simp only [headObjs, List.length_append, List.length_cons, List.length_nil,
             List.filterMap_append, List.filterMap_cons, List.filterMap_nil, Event.headOf,
             WorkerPc.headOf, MainPc.unsent] at h2 ⊢
           omega))

theorem Dry_step {σ : Type} {s : Service σ} {m m' : Machine σ} (hd : s.config.DryRun = true)
    (h : Dry m) (st : Step s m m') : Dry m' := by
  cases st <;> obtain ⟨h1, h2⟩ := h <;>
    first
    | (simp only [hd, reduceCtorEq] at *; done)
    | (exfalso
       simp only [List.length_append, List.length_cons, List.length_nil,
             List.filterMap_append, List.filterMap_cons, List.filterMap_nil,
             WorkerPc.getOf, WorkerPc.putOf, WorkerPc.copiedOf, WorkerPc.bytesOf, WorkerPc.errorsOf] at h2
       omega)
    | (constructor <;>
        first
        | (intro x
           have e1 := h1 x
           simp only [copyHeads, adds, List.count_cons,
             List.count_nil, List.count_append, List.append_nil,
             List.filterMap_append, List.filterMap_cons, List.filterMap_nil, Event.copyOf, Event.addOf,
             WorkerPc.dryOf, reduceCtorEq, if_false, if_true, beq_iff_eq] at e1 ⊢
           try simp only [*, reduceCtorEq, if_false, if_true, Bool.false_eq_true, List.count_nil,
             List.count_cons, beq_iff_eq] at e1 ⊢
           all_goals ((try split_ifs at *) <;> omega))
        | (simp only [getObjs, putObjs, adds, List.length_append, List.length_cons, List.length_nil,
             List.filterMap_append, List.filterMap_cons, List.filterMap_nil, Event.getOf, Event.putOf,
             Event.addOf, reduceCtorEq, if_false, if_true,
             WorkerPc.getOf, WorkerPc.putOf, WorkerPc.copiedOf, WorkerPc.bytesOf, WorkerPc.errorsOf] at h2 ⊢
           omega))

theorem Wet_step {σ : Type} {s : Service σ} {m m' : Machine σ} (hd : s.config.DryRun = false)
    (h : Wet m) (st : Step s m m') : Wet m' := by
  cases st <;> obtain ⟨h1, h2, h3, h4⟩ := h <;>
    first
    | (simp only [hd, reduceCtorEq] at *; done)
    | (exfalso
       simp only [List.length_append, List.length_cons, List.length_nil,
             List.filterMap_append, List.filterMap_cons, List.filterMap_nil,
             WorkerPc.dryOf] at h1
       omega)
    | (constructor <;>
        first
        | (intro x
           have e2 := h2 x
           have e3 := h3 x
           have e4 := h4 x
           simp only [copyHeads, getObjs, putOks, adds, List.count_cons,
             List.count_nil, List.count_append, List.append_nil,
             List.filterMap_append, List.filterMap_cons, List.filterMap_nil, Event.copyOf, Event.addOf,
             Event.getOf, Event.putOkOf,
             WorkerPc.getOf, WorkerPc.copiedOf, WorkerPc.bytesOf,
             reduceCtorEq, if_false, if_true, beq_iff_eq] at e2 e3 e4 ⊢
           try simp only [*, reduceCtorEq, if_false, if_true, Bool.false_eq_true, List.count_nil,
             List.count_cons, beq_iff_eq] at e2 e3 e4 ⊢
           all_goals ((try split_ifs at *) <;> omega))
        | (simp only [List.length_append, List.length_cons, List.length_nil,
             List.filterMap_append, List.filterMap_cons, List.filterMap_nil,
             WorkerPc.dryOf] at h1 ⊢
           omega))

theorem wrapInt64_add (a d : Int) : wrapInt64 (wrapInt64 a + d) = wrapInt64 (a + d) := by
  unfold wrapInt64; omega

theorem wrapInt64_of_range (a : Int) (h1 : -9223372036854775808 ≤ a)
    (h2 : a < 9223372036854775808) : wrapInt64 a = a := by
  unfold wrapInt64; omega

theorem Counted_step {σ : Type} {s : Service σ} {L : List ObjectInfo} {m m' : Machine σ}
    (hb : m.main.begun = true)
    (h : Counted L m) (st : Step s m m') : Counted L m' := by
  cases st <;> obtain ⟨h1, h2, h3, h4, h5, h7, h6⟩ := h <;>
    first
    | (simp only [MainPc.begun, Bool.false_eq_true] at hb; done)
    | (constructor <;>
        first
        | with_reducible assumption
        | (intro objs hm
           first
           | (simp only [MainPc.listing, Option.some.injEq] at hm h6; exact h6 objs hm)
           | (simp only [MainPc.listing, reduceCtorEq] at hm))
        | (simp only [adds, List.filterMap_append, List.filterMap_cons, List.filterMap_nil,
             Event.addOf, reduceCtorEq, if_false, if_true, List.append_nil, Stats.atomicAdd,
             AddInt64, List.length_append, List.length_cons, List.length_nil, List.map_append,
             List.map_cons, List.map_nil, List.sum_append, List.sum_cons, List.sum_nil,
             Nat.cast_add, Nat.cast_one, add_zero, zero_add, MainPc.phase] at h1 h2 h3 h4 h5 h7 ⊢
           first
           | with_reducible assumption
           | (simp only [h1, h2, h3, h4, wrapInt64_add]; done)
           | (intro _; exact h5 (by omega))
           | (intro _; exact h7 (by omega))
           | (intro _; rw [h6 _ rfl])))

theorem Sync_step {σ : Type} {s : Service σ} {m m' : Machine σ}
    (hb : m.main.begun = true)
    (h : Sync s m) (st : Step s m m') : Sync s m' := by
  cases st <;> obtain ⟨h1, h2, h3, h4, h5, h6⟩ := h <;>
    first
    | (simp only [MainPc.begun, Bool.false_eq_true] at hb; done)
    | (constructor <;>
        first
        | with_reducible assumption
        | (intro r hr
           first
           | (cases hr; done)
           | (cases hr; exact ⟨rfl, by simpa using h1.symm⟩)
           | (have e := h6 r hr
              simp only [List.filter_append, List.filter_cons, List.filter_nil, WorkerPc.live,
                if_true, List.length_append, List.length_cons, List.length_nil] at e
              omega))
        | (simp only [List.filter_append, List.filter_cons, List.filter_nil, WorkerPc.live,
             if_true, if_false, Bool.false_eq_true,
             List.length_append, List.length_cons, List.length_nil, MainPc.phase, MainPc.poolOk,
             Nat.cast_add, Nat.cast_one] at h1 h3 h4 h5 ⊢
           first
           | with_reducible assumption
           | omega
           | (intro _; trivial)
           | (simp only [MainPc.phase] at h2 ⊢
              first
              | (simp at h2 ⊢; done)
              | (simp at h2 ⊢; exact h2)
              | (simp at h2; omega))))

/-! ## Reachable states -/

theorem exec_concat {σ : Type} (s : Service σ) (sched : List Nat) (tid : Nat) (m : Machine σ) :
    Machine.exec s (sched ++ [tid]) m = (Machine.exec s sched m).step s tid := by
  simp [Machine.exec, List.foldl_append]

theorem exec_append {σ : Type} (s : Service σ) (a b : List Nat) (m : Machine σ) :
    Machine.exec s (a ++ b) m = Machine.exec s b (Machine.exec s a m) := by
  simp [Machine.exec, List.foldl_append]

theorem begun_step {σ : Type} {s : Service σ} {m m' : Machine σ}
    (hb : m.main.begun = true) (st : Step s m m') : m'.main.begun = true := by
  cases st <;> first | exact hb | rfl

theorem Good_step {σ : Type} {s : Service σ} {L : List ObjectInfo} {m m' : Machine σ}
    (h : Good s L m) (st : Step s m m') : Good s L m' :=
  ⟨begun_step h.begun st, Flow_step h.flow st, Counted_step h.begun h.counted st,
    Sync_step h.begun h.sync st, fun hd => Dry_step hd (h.dry hd) st,
    fun hd => Wet_step hd (h.wet hd) st⟩

theorem Good_listed {σ : Type} (s : Service σ) (L : List ObjectInfo) (w : σ)
    (hfresh : s.stats = ⟨0, 0, 0, 0, 0⟩) : Good s L (Machine.listed s L w) := by
  refine ⟨rfl, ⟨rfl, ?_, ?_, ?_, ?_, ?_⟩, ⟨?_, ?_, ?_, ?_, ?_, ?_, ?_⟩, ⟨rfl, rfl, ?_, ?_, rfl, ?_⟩,
    fun _ => ⟨?_, rfl⟩, fun _ => ⟨rfl, ?_, ?_, ?_⟩⟩ <;>
  simp [Machine.listed, hfresh, headObjs, skipHeads, copyHeads, getObjs, getOks, getFails, putObjs,
    putOks, putFails, adds, wrapInt64]

theorem step_init_ok {σ : Type} {s : Service σ} {w w1 : σ} {L : List ObjectInfo}
    (hlist : s.sourceClient.ListObjects w s.config.Source.Prefix = (.ok L, w1)) (tid : Nat) :
    (Machine.init s w).step s tid = Machine.init s w
      ∨ (Machine.init s w).step s tid = Machine.listed s L w1 := by
  cases tid with
  | zero => right; simp [Machine.step, mainStep, Machine.init, Machine.listed, hlist]
  | succ i => left; simp [Machine.step, workerStep, Machine.init]

theorem step_init_err {σ : Type} {s : Service σ} {w w1 : σ} {err : GoError}
    (hlist : s.sourceClient.ListObjects w s.config.Source.Prefix = (.error err, w1)) (tid : Nat) :
    (Machine.init s w).step s tid = Machine.init s w
      ∨ (Machine.init s w).step s tid = Machine.failed s err w1 := by
  cases tid with
  | zero => right; simp [Machine.step, mainStep, Machine.init, Machine.failed, hlist]
  | succ i => left; simp [Machine.step, workerStep, Machine.init]

theorem step_failed {σ : Type} (s : Service σ) (err : GoError) (w : σ) (tid : Nat) :
    (Machine.failed s err w).step s tid = Machine.failed s err w := by
  cases tid with
  | zero => simp [Machine.step, mainStep, Machine.failed]
  | succ i => simp [Machine.step, workerStep, Machine.failed]

/-- After a successful listing every reachable state is the initial one or a good one. -/
theorem run_ok {σ : Type} {s : Service σ} {w w1 : σ} {L : List ObjectInfo}
    (hfresh : s.stats = ⟨0, 0, 0, 0, 0⟩)
    (hlist : s.sourceClient.ListObjects w s.config.Source.Prefix = (.ok L, w1)) (sched : List Nat) :
    run s w sched = Machine.init s w ∨ Good s L (run s w sched) := by
  induction sched using List.reverseRecOn with
  | nil => exact Or.inl rfl
  | append_singleton l tid ih =>
    unfold run at ih ⊢
    rw [exec_concat]
    rcases ih with h0 | hg
    · rw [h0]
      rcases step_init_ok hlist tid with h | h
      · exact Or.inl h
      · rw [h]; exact Or.inr (Good_listed s L w1 hfresh)
    · rcases step_sound s tid (Machine.exec s l (Machine.init s w)) with he | hs
      · rw [he]; exact Or.inr hg
      · exact Or.inr (Good_step hg hs)

/-- After a failed listing the only reachable states are the initial and the failed one. -/
theorem run_err {σ : Type} {s : Service σ} {w w1 : σ} {err : GoError}
    (hlist : s.sourceClient.ListObjects w s.config.Source.Prefix = (.error err, w1))
    (sched : List Nat) :
    run s w sched = Machine.init s w ∨ run s w sched = Machine.failed s err w1 := by
  induction sched using List.reverseRecOn with
  | nil => exact Or.inl rfl
  | append_singleton l tid ih =>
    unfold run at ih ⊢
    rw [exec_concat]
    rcases ih with h0 | hg
    · rw [h0]; exact step_init_err hlist tid
    · rw [hg]; exact Or.inr (step_failed s err w1 tid)

/-! ## Termination -/

theorem rank_step {σ : Type} {s : Service σ} {m m' : Machine σ}
    (hb : m.main.begun = true) (st : Step s m m') : m'.rank s < m.rank s := by
  cases st <;>
    first
    | (simp only [MainPc.begun, Bool.false_eq_true] at hb; done)
    | (simp only [Machine.rank, MainPc.rank, WorkerPc.rank, List.map_append, List.map_cons,
         List.map_nil, List.sum_append, List.sum_cons, List.sum_nil, List.length_append,
         List.length_cons, List.length_nil]
       omega)

theorem exists_live {ws : List WorkerPc} (h : 0 < (ws.filter WorkerPc.live).length) :
    ∃ (i : Nat) (pc : WorkerPc), ws[i]? = some pc ∧ pc ≠ WorkerPc.exited := by
  have hne : ws.filter WorkerPc.live ≠ [] := by
    intro h0; rw [h0] at h; simp at h
  obtain ⟨pc, hpc⟩ := List.exists_mem_of_ne_nil _ hne
  rw [List.mem_filter] at hpc
  obtain ⟨i, hi, rfl⟩ := List.getElem_of_mem hpc.1
  refine ⟨i, ws[i], by simp [hi], ?_⟩
  intro h'
  rw [h'] at hpc
  simp at hpc

/-- In a good state that has not returned, some goroutine can move. -/
theorem progress {σ : Type} {s : Service σ} {L : List ObjectInfo} {m : Machine σ}
    (h : Good s L m) (hp : m.main.phase ≠ 5) : ∃ tid, Step s m (m.step s tid) := by
  by_cases hmain : m.mainBlocked
  · -- the main goroutine can only be blocked in `wg.Wait()`
    have hwait : m.main = .wait ∧ m.wg ≠ 0 := by
      obtain ⟨sh, cb, cap, cl, wg, main, ws⟩ := m
      cases main with
      | send rest =>
        cases rest with
        | nil => simp [Machine.mainBlocked] at hmain
        | cons o r =>
          exfalso
          have h1 := h.flow.dispLen
          have h2 := h.counted.cap
          simp [Machine.mainBlocked] at hmain h1 h2
          omega
      | wait => exact ⟨rfl, by simpa [Machine.mainBlocked] using hmain⟩
      | returned r => simp at hp
      | _ => simp [Machine.mainBlocked] at hmain
    have hlive : 0 < (m.workers.filter WorkerPc.live).length := by
      have := h.sync.wg
      omega
    obtain ⟨i, pc, hi, hpc⟩ := exists_live hlive
    refine ⟨i + 1, ?_⟩
    rcases workerStep_spec s i m with ⟨hblk, -⟩ | hs
    · exfalso
      have hcl := h.sync.closed
      unfold Machine.workerBlocked at hblk
      rw [hi] at hblk
      cases pc with
      | exited => exact hpc rfl
      | recv => simp [hwait.1] at hcl; simp [hcl] at hblk
      | _ => exact hblk
    · exact hs
  · refine ⟨0, ?_⟩
    rcases mainStep_spec s m with ⟨hblk, -⟩ | hs
    · exact absurd hblk hmain
    · exact hs

/-- From every good state some schedule makes `Mirror` return. -/
theorem Good_terminates {σ : Type} {s : Service σ} {L : List ObjectInfo} :
    ∀ (n : Nat) (m : Machine σ), m.rank s ≤ n → Good s L m →
      ∃ ext, (Machine.exec s ext m).main.phase = 5 := by
  intro n
  induction n with
  | zero =>
    intro m hn h
    by_cases hp : m.main.phase = 5
    · exact ⟨[], hp⟩
    · obtain ⟨tid, st⟩ := progress h hp
      have := rank_step h.begun st
      omega
  | succ k ih =>
    intro m hn h
    by_cases hp : m.main.phase = 5
    · exact ⟨[], hp⟩
    · obtain ⟨tid, st⟩ := progress h hp
      have hr := rank_step h.begun st
      obtain ⟨ext, hext⟩ := ih (m.step s tid) (by omega) (Good_step h st)
      exact ⟨tid :: ext, hext⟩

theorem Mirror_eq_some {σ : Type} {s : Service σ} {w : σ} {sched : List Nat}
    {r : Except GoError Stats} :
    Mirror s w sched = some r ↔ (run s w sched).main = .returned r := by
  unfold Mirror
  cases h : (run s w sched).main <;> simp

/-- `Mirror` returns: every schedule can be extended to one under which it has returned. -/
theorem Mirror_returns {σ : Type} (s : Service σ) (w : σ) (hfresh : s.stats = ⟨0, 0, 0, 0, 0⟩)
    (sched : List Nat) : ∃ ext r, Mirror s w (sched ++ ext) = some r := by
  have key : ∀ m : Machine σ, (∃ ext, (Machine.exec s ext m).main.phase = 5) →
      run s w sched = m → ∃ ext r, Mirror s w (sched ++ ext) = some r := by
    intro m ⟨ext, hext⟩ hm
    refine ⟨ext, ?_⟩
    simp only [Mirror_eq_some]
    unfold run at hm ⊢
    rw [exec_append, hm]
    cases hmain : (Machine.exec s ext m).main with
    | returned r => exact ⟨r, rfl⟩
    | _ => rw [hmain] at hext; simp at hext
  cases hlist : s.sourceClient.ListObjects w s.config.Source.Prefix with
  | mk res w1 =>
    cases res with
    | error err =>
      rcases run_err hlist sched with h0 | h1
      · refine key _ ⟨[0], ?_⟩ h0
        simp [Machine.exec, Machine.step, mainStep, Machine.init, hlist]
      · exact key _ ⟨[], by simp [Machine.exec, Machine.failed]⟩ h1
    | ok L =>
      rcases run_ok hfresh hlist sched with h0 | hg
      · have hg : Good s L (Machine.listed s L w1) := Good_listed s L w1 hfresh
        obtain ⟨ext, hext⟩ := Good_terminates _ _ (le_refl _) hg
        refine key _ ⟨0 :: ext, ?_⟩ h0
        have : (Machine.init s w).step s 0 = Machine.listed s L w1 := by
          simp [Machine.step, mainStep, Machine.init, Machine.listed, hlist]
        simpa [Machine.exec, this] using hext
      · obtain ⟨ext, hext⟩ := Good_terminates _ _ (le_refl _) hg
        exact key _ ⟨ext, hext⟩ rfl

/-! ## The state in which `Mirror` has returned -/

theorem count_heads (tr : List Event) (x : ObjectInfo) :
    (headObjs tr).count x = (skipHeads tr).count x + (copyHeads tr).count x := by
  induction tr with
  | nil => rfl
  | cons e t ih =>
    cases e <;>
      simp only [headObjs, skipHeads, copyHeads, List.filterMap_cons, Event.headOf, Event.skipOf,
        Event.copyOf] at ih ⊢ <;> try exact ih
    split_ifs <;> simp only [List.count_cons] <;> omega

theorem count_gets (tr : List Event) (x : ObjectInfo) :
    (getObjs tr).count x = (getOks tr).count x + (getFails tr).count x := by
  induction tr with
  | nil => rfl
  | cons e t ih =>
    cases e <;>
      simp only [getObjs, getOks, getFails, List.filterMap_cons, Event.getOf, Event.getOkOf,
        Event.getFailOf] at ih ⊢ <;> try exact ih
    rename_i o k res
    cases res <;> simp only [List.count_cons] <;> omega

theorem count_puts (tr : List Event) (x : ObjectInfo) :
    (putObjs tr).count x = (putOks tr).count x + (putFails tr).count x := by
  induction tr with
  | nil => rfl
  | cons e t ih =>
    cases e <;>
      simp only [putObjs, putOks, putFails, List.filterMap_cons, Event.putOf, Event.putOkOf,
        Event.putFailOf] at ih ⊢ <;> try exact ih
    rename_i o k b sz res
    cases res <;> simp only [List.count_cons] <;> omega

theorem all_exited {ws : List WorkerPc} (h : (ws.filter WorkerPc.live).length = 0) :
    ws = List.replicate ws.length .exited := by
  induction ws with
  | nil => rfl
  | cons pc t ih =>
    cases pc <;> simp only [List.filter_cons, WorkerPc.live, if_true, List.length_cons] at h <;>
      first
      | omega
      | (simp only [Bool.false_eq_true, if_false] at h
         rw [List.length_cons, List.replicate_succ, ← ih h])

theorem filterMap_replicate_exited (sel : WorkerPc → Option ObjectInfo)
    (hsel : sel .exited = none) (n : Nat) :
    (List.replicate n WorkerPc.exited).filterMap sel = [] := by
  induction n with
  | zero => rfl
  | succ k ih => simp [List.replicate_succ, List.filterMap_cons, hsel, ih]

theorem Good_final {σ : Type} {s : Service σ} {L : List ObjectInfo} {m : Machine σ}
    {r : Except GoError Stats} (h : Good s L m) (hr : m.main = .returned r) :
    r = .ok m.sh.stats ∧ Final s L m := by
  obtain ⟨hres, hlive⟩ := h.sync.result r hr
  have hws := all_exited hlive
  have hpool := h.sync.pool
  rw [hr] at hpool
  simp only [MainPc.poolOk] at hpool
  rw [hpool] at hws
  have hphase : m.main.phase = 5 := by rw [hr]; rfl
  have hunsent : m.main.unsent = [] := by rw [hr]; rfl
  have e1 := h.flow.disp
  have e1' := h.flow.dispLen
  have e2 := h.flow.skip
  have e3 := h.flow.put
  have e4 := h.flow.err
  rw [hws] at e1 e1' e2 e3 e4
  simp only [filterMap_replicate_exited, WorkerPc.headOf, WorkerPc.skippedOf, WorkerPc.putOf,
    WorkerPc.errorsOf, List.count_nil, List.length_nil, add_zero, hunsent] at e1 e1' e2 e3 e4
  refine ⟨hres, hws, h.counted.total (by omega), h.counted.copied, h.counted.skipped,
    h.counted.errors, h.counted.bytes, ?_, by omega, ?_, ?_, ?_, ?_⟩
  · intro hW
    have hdr := h.sync.drainedBuf
    rw [hws] at hdr
    have hcb : m.chanBuf = [] := by
      apply List.eq_nil_of_length_eq_zero
      apply hdr
      simp only [List.length_replicate]
      have : (List.filter WorkerPc.live (List.replicate s.config.Workers.toNat WorkerPc.exited)) = [] := by
        rw [← hws]; exact List.eq_nil_of_length_eq_zero hlive
      rw [this]
      simp only [List.length_nil]
      omega
    rw [List.perm_iff_count]
    intro x
    have := e1 x
    rw [hcb] at this
    simpa using this
  · rw [List.subperm_ext_iff]
    intro x _
    have := e1 x
    omega
  · rw [List.perm_iff_count]; intro x; exact (e2 x).symm
  · intro hd
    obtain ⟨d1, d2⟩ := h.dry hd
    rw [hws] at d1 d2
    simp only [filterMap_replicate_exited, WorkerPc.dryOf, WorkerPc.getOf, WorkerPc.putOf,
      WorkerPc.copiedOf, WorkerPc.bytesOf, WorkerPc.errorsOf, List.count_nil, List.length_nil,
      add_zero] at d1 d2
    refine ⟨?_, ?_, ?_, ?_, ?_⟩
    · rw [List.perm_iff_count]; intro x; exact (d1 x).symm
    all_goals (apply List.eq_nil_of_length_eq_zero; omega)
  · intro hd
    obtain ⟨-, w2, w3, w4⟩ := h.wet hd
    rw [hws] at w2 w3 w4
    simp only [filterMap_replicate_exited, WorkerPc.getOf, WorkerPc.copiedOf, WorkerPc.bytesOf,
      List.count_nil, add_zero] at w2 w3 w4
    refine ⟨?_, ?_, ?_, ?_, ?_⟩ <;> rw [List.perm_iff_count] <;> intro x
    · exact (w2 x).symm
    · exact (e3 x).symm
    · rw [List.count_append]; exact (e4 x).symm
    · exact (w3 x).symm
    · rw [← w4 x]; exact (w3 x).symm

theorem length_heads (tr : List Event) :
    (headObjs tr).length = (skipHeads tr).length + (copyHeads tr).length := by
  induction tr with
  | nil => rfl
  | cons e t ih =>
    cases e <;>
      simp only [headObjs, skipHeads, copyHeads, List.filterMap_cons, Event.headOf, Event.skipOf,
        Event.copyOf] at ih ⊢ <;> try exact ih
    split_ifs <;> simp only [List.length_cons] <;> omega

theorem length_gets (tr : List Event) :
    (getObjs tr).length = (getOks tr).length + (getFails tr).length := by
  induction tr with
  | nil => rfl
  | cons e t ih =>
    cases e <;>
      simp only [getObjs, getOks, getFails, List.filterMap_cons, Event.getOf, Event.getOkOf,
        Event.getFailOf] at ih ⊢ <;> try exact ih
    rename_i o k res
    cases res <;> simp only [List.length_cons] <;> omega

theorem length_puts (tr : List Event) :
    (putObjs tr).length = (putOks tr).length + (putFails tr).length := by
  induction tr with
  | nil => rfl
  | cons e t ih =>
    cases e <;>
      simp only [putObjs, putOks, putFails, List.filterMap_cons, Event.putOf, Event.putOkOf,
        Event.putFailOf] at ih ⊢ <;> try exact ih
    rename_i o k b sz res
    cases res <;> simp only [List.length_cons] <;> omega

/-- The state in which `Mirror` returned after a successful listing is final. -/
theorem Mirror_final {σ : Type} {s : Service σ} {w w1 : σ} {L : List ObjectInfo}
    (hfresh : s.stats = ⟨0, 0, 0, 0, 0⟩)
    (hlist : s.sourceClient.ListObjects w s.config.Source.Prefix = (.ok L, w1))
    {sched : List Nat} {r : Except GoError Stats} (h : Mirror s w sched = some r) :
    r = .ok (run s w sched).sh.stats ∧ Final s L (run s w sched) := by
  rw [Mirror_eq_some] at h
  rcases run_ok hfresh hlist sched with h0 | hg
  · rw [h0] at h; simp [Machine.init] at h
  · exact Good_final hg h

/-- After a successful listing `Mirror` returns, and returns a `Stats`. -/
theorem Mirror_returns_ok {σ : Type} {s : Service σ} {w w1 : σ} {L : List ObjectInfo}
    (hfresh : s.stats = ⟨0, 0, 0, 0, 0⟩)
    (hlist : s.sourceClient.ListObjects w s.config.Source.Prefix = (.ok L, w1))
    (sched : List Nat) : ∃ ext st, Mirror s w (sched ++ ext) = some (.ok st) := by
  obtain ⟨ext, r, hr⟩ := Mirror_returns s w hfresh sched
  obtain ⟨h1, -⟩ := Mirror_final hfresh hlist hr
  exact ⟨ext, _, h1 ▸ hr⟩

/-- In a final state with at least one worker, the three outcome counters
were incremented once for each listed object. -/
theorem Final_outcomes {σ : Type} {s : Service σ} {L : List ObjectInfo} {m : Machine σ}
    (h : Final s L m) (hW : 1 ≤ s.config.Workers) :
    (adds .CopiedObjects m.sh.trace ++ adds .SkippedObjects m.sh.trace
      ++ adds .Errors m.sh.trace).Perm L := by
  rw [List.perm_iff_count]
  intro x
  have h1 := (h.heads hW).count_eq x
  have h2 := h.skip.count_eq x
  have h3 := count_heads m.sh.trace x
  have h4 := count_gets m.sh.trace x
  have h5 := count_puts m.sh.trace x
  simp only [List.count_append]
  cases hd : s.config.DryRun with
  | true =>
    obtain ⟨d1, d2, d3, d4, d5⟩ := h.dry hd
    have := d1.count_eq x
    rw [d4]
    simp only [List.count_nil]
    omega
  | false =>
    obtain ⟨w1, w2, w3, w4, w5⟩ := h.wet hd
    have := w1.count_eq x
    have := w2.count_eq x
    have := w3.count_eq x
    have := w4.count_eq x
    simp only [List.count_append] at *
    omega

theorem Final_bytes_perm {σ : Type} {s : Service σ} {L : List ObjectInfo} {m : Machine σ}
    (h : Final s L m) : (adds .BytesTransferred m.sh.trace).Perm (putOks m.sh.trace) := by
  cases hd : s.config.DryRun with
  | true =>
    obtain ⟨d1, d2, d3, d4, d5⟩ := h.dry hd
    have h5 := length_puts m.sh.trace
    rw [d3] at h5
    have : putOks m.sh.trace = [] := List.eq_nil_of_length_eq_zero (by simp at h5; omega)
    rw [d5, this]
  | false => exact (h.wet hd).2.2.2.2

/-! ## The engine under every interleaving -/

theorem wrapInt64_natCast {n : Nat} (h : n < 9223372036854775808) : wrapInt64 (n : Int) = n := by
  unfold wrapInt64; omega

theorem wrapInt64_zero : wrapInt64 0 = 0 := by decide

/-- C1, total accounting. On a fresh service, when `ListObjects` succeeds with
listing `L` and `Workers ≥ 1`, then for every behaviour of the storage clients
and every interleaving of the goroutines `Mirror` returns a `Stats` (every
schedule extends to one under which it has), and the `Stats` it returns have
`TotalObjects = len L` and `TotalObjects = CopiedObjects + SkippedObjects +
Errors`; the increments of these three counters are, taken together, one for
each listed object. `hlen` is the bound Go puts on the length of a slice. -/
theorem total_accounting {σ : Type} (src tgt : Client σ) (cfg : Config) (w w1 : σ)
    (L : List ObjectInfo)
    (hlist : src.ListObjects w cfg.Source.Prefix = (.ok L, w1))
    (hW : 1 ≤ cfg.Workers) (hlen : L.length < 9223372036854775808) :
    (∀ sched, ∃ ext st, Mirror (NewService src tgt cfg) w (sched ++ ext) = some (.ok st))
    ∧ ∀ sched st, Mirror (NewService src tgt cfg) w sched = some (.ok st) →
        st.TotalObjects = L.length
        ∧ st.TotalObjects = st.CopiedObjects + st.SkippedObjects + st.Errors
        ∧ (adds .CopiedObjects (history (NewService src tgt cfg) w sched)
            ++ adds .SkippedObjects (history (NewService src tgt cfg) w sched)
            ++ adds .Errors (history (NewService src tgt cfg) w sched)).Perm L := by
  refine ⟨Mirror_returns_ok rfl hlist, ?_⟩
  intro sched st h
  obtain ⟨hst, hf⟩ := Mirror_final (s := NewService src tgt cfg) rfl hlist h
  have hp := Final_outcomes hf hW
  have hl := hp.length_eq
  simp only [List.length_append] at hl
  injection hst with hst
  subst hst
  refine ⟨hf.total, ?_, hp⟩
  rw [hf.total, hf.copied, hf.skipped, hf.errors, wrapInt64_natCast, wrapInt64_natCast,
    wrapInt64_natCast] <;> omega

/-- C4, fault isolation. On a fresh service, with a successful listing `L`,
`Workers ≥ 1` and dry-run off, `Mirror` returns, and what it returns is a
`Stats` and a nil error whichever calls fail. Every listed object is looked up
exactly once, every object that is not skipped is fetched exactly once, every
fetched object is stored exactly once (nothing is retried); `Errors` is the
number of failed `GetObject` calls plus the number of failed `PutObject` calls,
`SkippedObjects` the number of objects the skip decision skipped and
`CopiedObjects` the number of objects stored. When exactly one fetch fails and
no store fails, `Errors = 1`. -/
theorem fault_isolation {σ : Type} (src tgt : Client σ) (cfg : Config) (w w1 : σ)
    (L : List ObjectInfo)
    (hlist : src.ListObjects w cfg.Source.Prefix = (.ok L, w1))
    (hW : 1 ≤ cfg.Workers) (hlen : L.length < 9223372036854775808)
    (hdry : cfg.DryRun = false) :
    (∀ sched, ∃ ext st, Mirror (NewService src tgt cfg) w (sched ++ ext) = some (.ok st))
    ∧ ∀ sched r, Mirror (NewService src tgt cfg) w sched = some r →
        ∃ st, r = .ok st
          ∧ (headObjs (history (NewService src tgt cfg) w sched)).Perm L
          ∧ (getObjs (history (NewService src tgt cfg) w sched)).Perm
              (copyHeads (history (NewService src tgt cfg) w sched))
          ∧ (putObjs (history (NewService src tgt cfg) w sched)).Perm
              (getOks (history (NewService src tgt cfg) w sched))
          ∧ st.Errors = (getFails (history (NewService src tgt cfg) w sched)).length
              + (putFails (history (NewService src tgt cfg) w sched)).length
          ∧ st.SkippedObjects = (skipHeads (history (NewService src tgt cfg) w sched)).length
          ∧ st.CopiedObjects = (putOks (history (NewService src tgt cfg) w sched)).length
          ∧ ((getFails (history (NewService src tgt cfg) w sched)).length = 1 →
              putFails (history (NewService src tgt cfg) w sched) = [] → st.Errors = 1) := by
  refine ⟨Mirror_returns_ok rfl hlist, ?_⟩
  intro sched r h
  obtain ⟨hst, hf⟩ := Mirror_final (s := NewService src tgt cfg) rfl hlist h
  refine ⟨_, hst, ?_⟩
  obtain ⟨w1, w2, w3, w4, w5⟩ := hf.wet hdry
  have hp := (Final_outcomes hf hW).length_eq
  have hl1 := w3.length_eq
  have hl2 := w4.length_eq
  have hl3 := hf.skip.length_eq
  simp only [List.length_append] at hp hl1
  have herr : (run (NewService src tgt cfg) w sched).sh.stats.Errors
      = (getFails (history (NewService src tgt cfg) w sched)).length
        + (putFails (history (NewService src tgt cfg) w sched)).length := by
    rw [hf.errors, wrapInt64_natCast (by omega)]
    unfold history
    omega
  refine ⟨hf.heads hW, w1, w2, herr, ?_, ?_, ?_⟩
  · rw [hf.skipped, wrapInt64_natCast (by omega)]; unfold history; omega
  · rw [hf.copied, wrapInt64_natCast (by omega)]; unfold history; omega
  · intro h1 h2
    rw [herr, h1, h2]
    rfl

/-- C5, listing failure is the only error. On a fresh service `Mirror` returns,
and it returns an error if and only if `ListObjects` fails. When the listing
fails with `err`, `Mirror` returns a nil `Stats` and the error
`failed to list source objects: ` wrapping `err`, and the listing is the only
storage call made. When the listing succeeds, `Mirror` returns a `Stats` and a
nil error. -/
theorem Mirror_error_iff_list_fails {σ : Type} (src tgt : Client σ) (cfg : Config) (w : σ) :
    (∀ sched, ∃ ext r, Mirror (NewService src tgt cfg) w (sched ++ ext) = some r)
    ∧ (∀ sched r, Mirror (NewService src tgt cfg) w sched = some r →
        ((∃ e, r = .error e) ↔ ∃ err, (src.ListObjects w cfg.Source.Prefix).1 = .error err))
    ∧ (∀ err, (src.ListObjects w cfg.Source.Prefix).1 = .error err →
        ∀ sched r, Mirror (NewService src tgt cfg) w sched = some r →
          r = .error (.wrap "failed to list source objects: " err)
          ∧ history (NewService src tgt cfg) w sched
              = [.listObjects cfg.Source.Prefix (.error err)])
    ∧ (∀ L, (src.ListObjects w cfg.Source.Prefix).1 = .ok L →
        ∀ sched r, Mirror (NewService src tgt cfg) w sched = some r → ∃ st, r = .ok st) := by
  have hE : ∀ err, (src.ListObjects w cfg.Source.Prefix).1 = .error err →
      ∀ sched r, Mirror (NewService src tgt cfg) w sched = some r →
        r = .error (.wrap "failed to list source objects: " err)
        ∧ history (NewService src tgt cfg) w sched
            = [.listObjects cfg.Source.Prefix (.error err)] := by
    intro err he sched r h
    have hlist : (NewService src tgt cfg).sourceClient.ListObjects w
        (NewService src tgt cfg).config.Source.Prefix
          = (.error err, (src.ListObjects w cfg.Source.Prefix).2) := Prod.ext he rfl
    rw [Mirror_eq_some] at h
    unfold history
    rcases run_err hlist sched with h0 | h1
    · rw [h0] at h; simp [Machine.init] at h
    · rw [h1] at h ⊢
      simp only [Machine.failed, MainPc.returned.injEq] at h
      exact ⟨h.symm, rfl⟩
  have hO : ∀ L, (src.ListObjects w cfg.Source.Prefix).1 = .ok L →
      ∀ sched r, Mirror (NewService src tgt cfg) w sched = some r → ∃ st, r = .ok st := by
    intro L hl sched r h
    have hlist : (NewService src tgt cfg).sourceClient.ListObjects w
        (NewService src tgt cfg).config.Source.Prefix
          = (.ok L, (src.ListObjects w cfg.Source.Prefix).2) := Prod.ext hl rfl
    exact ⟨_, (Mirror_final rfl hlist h).1⟩
  refine ⟨Mirror_returns _ w rfl, ?_, hE, hO⟩
  intro sched r h
  cases hl : (src.ListObjects w cfg.Source.Prefix).1 with
  | error err =>
    obtain ⟨hr, -⟩ := hE err hl sched r h
    exact ⟨fun _ => ⟨err, rfl⟩, fun _ => ⟨_, hr⟩⟩
  | ok L =>
    obtain ⟨st, hr⟩ := hO L hl sched r h
    subst hr
    constructor
    · rintro ⟨e, he⟩; cases he
    · rintro ⟨err, he⟩; cases he

/-- C3, dry-run purity. On a fresh service, with a successful listing `L` and
`DryRun` set, for every worker count: `Mirror` returns, and a run that
returned made no `GetObject` and no `PutObject` call, has
`BytesTransferred = 0` and `Errors = 0`, and has `CopiedObjects` equal to the
number of objects that the skip decision did not skip. The objects the skip
decision was taken for are listed objects, each taken at most as often as it
is listed, and each was either skipped or not; with `Workers ≥ 1` they are all
the listed objects, so that `CopiedObjects` and the number of skipped objects
add up to the length of the listing. -/
theorem dry_run_purity {σ : Type} (src tgt : Client σ) (cfg : Config) (w w1 : σ)
    (L : List ObjectInfo)
    (hlist : src.ListObjects w cfg.Source.Prefix = (.ok L, w1))
    (hdry : cfg.DryRun = true) (hlen : L.length < 9223372036854775808) :
    (∀ sched, ∃ ext st, Mirror (NewService src tgt cfg) w (sched ++ ext) = some (.ok st))
    ∧ ∀ sched st, Mirror (NewService src tgt cfg) w sched = some (.ok st) →
        getObjs (history (NewService src tgt cfg) w sched) = []
        ∧ putObjs (history (NewService src tgt cfg) w sched) = []
        ∧ st.BytesTransferred = 0 ∧ st.Errors = 0
        ∧ st.CopiedObjects = (copyHeads (history (NewService src tgt cfg) w sched)).length
        ∧ (copyHeads (history (NewService src tgt cfg) w sched)
            ++ skipHeads (history (NewService src tgt cfg) w sched)).Perm
              (headObjs (history (NewService src tgt cfg) w sched))
        ∧ (headObjs (history (NewService src tgt cfg) w sched)).Subperm L
        ∧ (1 ≤ cfg.Workers →
            (headObjs (history (NewService src tgt cfg) w sched)).Perm L
            ∧ st.CopiedObjects + (skipHeads (history (NewService src tgt cfg) w sched)).length
                = L.length) := by
  refine ⟨Mirror_returns_ok rfl hlist, ?_⟩
  intro sched st h
  obtain ⟨hst, hf⟩ := Mirror_final (s := NewService src tgt cfg) rfl hlist h
  injection hst with hst
  subst hst
  obtain ⟨d1, d2, d3, d4, d5⟩ := hf.dry hdry
  have hle := hf.headsLe
  have hl := length_heads (run (NewService src tgt cfg) w sched).sh.trace
  have hc := d1.length_eq
  have hcop : (run (NewService src tgt cfg) w sched).sh.stats.CopiedObjects
      = (copyHeads (history (NewService src tgt cfg) w sched)).length := by
    rw [hf.copied, wrapInt64_natCast (by omega)]; unfold history; omega
  refine ⟨d2, d3, ?_, ?_, hcop, ?_, hf.headsSub, ?_⟩
  · rw [hf.bytes, d5]; exact wrapInt64_zero
  · rw [hf.errors, d4]; exact wrapInt64_zero
  · rw [List.perm_iff_count]
    intro x
    rw [List.count_append]
    have := count_heads (run (NewService src tgt cfg) w sched).sh.trace x
    unfold history
    omega
  · intro hW
    have hh := (hf.heads hW).length_eq
    refine ⟨hf.heads hW, ?_⟩
    rw [hcop]; unfold history; omega

/-- C9, bytes accounting up to `int64` wrap-around. On a fresh service with a
successful listing and `Workers ≥ 1`, `Mirror` returns, and `BytesTransferred`
is the sum of the listed sizes of the objects whose `PutObject` succeeded,
reduced into the `int64` range; it is that sum itself whenever the sum lies in
the `int64` range. In a dry run no object is stored and `BytesTransferred = 0`;
otherwise the objects stored are those counted in `CopiedObjects`, and each
was fetched successfully before. -/
theorem bytes_accounting {σ : Type} (src tgt : Client σ) (cfg : Config) (w w1 : σ)
    (L : List ObjectInfo)
    (hlist : src.ListObjects w cfg.Source.Prefix = (.ok L, w1))
    (hW : 1 ≤ cfg.Workers) :
    (∀ sched, ∃ ext st, Mirror (NewService src tgt cfg) w (sched ++ ext) = some (.ok st))
    ∧ ∀ sched st, Mirror (NewService src tgt cfg) w sched = some (.ok st) →
        st.BytesTransferred
          = wrapInt64 (((putOks (history (NewService src tgt cfg) w sched)).map ObjectInfo.Size).sum)
        ∧ (-9223372036854775808
              ≤ ((putOks (history (NewService src tgt cfg) w sched)).map ObjectInfo.Size).sum →
            ((putOks (history (NewService src tgt cfg) w sched)).map ObjectInfo.Size).sum
              < 9223372036854775808 →
            st.BytesTransferred
              = ((putOks (history (NewService src tgt cfg) w sched)).map ObjectInfo.Size).sum)
        ∧ (cfg.DryRun = true →
            putOks (history (NewService src tgt cfg) w sched) = [] ∧ st.BytesTransferred = 0)
        ∧ (cfg.DryRun = false →
            (adds .CopiedObjects (history (NewService src tgt cfg) w sched)).Perm
                (putOks (history (NewService src tgt cfg) w sched))
            ∧ (putObjs (history (NewService src tgt cfg) w sched)).Perm
                (getOks (history (NewService src tgt cfg) w sched))) := by
  have _ := hW
  refine ⟨Mirror_returns_ok rfl hlist, ?_⟩
  intro sched st h
  obtain ⟨hst, hf⟩ := Mirror_final (s := NewService src tgt cfg) rfl hlist h
  injection hst with hst
  subst hst
  have hb : (run (NewService src tgt cfg) w sched).sh.stats.BytesTransferred
      = wrapInt64 (((putOks (history (NewService src tgt cfg) w sched)).map ObjectInfo.Size).sum) := by
    rw [hf.bytes, ((Final_bytes_perm hf).map ObjectInfo.Size).sum_eq]; rfl
  refine ⟨hb, ?_, ?_, ?_⟩
  · intro h1 h2
    rw [hb, wrapInt64_of_range _ h1 h2]
  · intro hd
    obtain ⟨d1, d2, d3, d4, d5⟩ := hf.dry hd
    have hp := Final_bytes_perm hf
    rw [d5] at hp
    have : putOks (history (NewService src tgt cfg) w sched) = [] := List.Perm.nil_eq hp |>.symm
    refine ⟨this, ?_⟩
    rw [hb, this]
    exact wrapInt64_zero
  · intro hd
    obtain ⟨w1, w2, w3, w4, w5⟩ := hf.wet hd
    exact ⟨w4, w2⟩

/-- C8, no lost updates. On a fresh service with a successful listing `L` and
`Workers ≥ 1`, under every interleaving of the `Workers` goroutines with the
goroutine of `Mirror`: `Mirror` returns; when it has returned, every listed
object was processed exactly once, all `Workers` workers have exited, the
`Stats` returned are the shared counters, and each counter is the number of
increments made to it, which together are one for each listed object. When no
object is skipped and no call fails, `CopiedObjects = len L`; so with 20
workers and 1000 objects it is 1000. -/
theorem no_lost_updates {σ : Type} (src tgt : Client σ) (cfg : Config) (w w1 : σ)
    (L : List ObjectInfo)
    (hlist : src.ListObjects w cfg.Source.Prefix = (.ok L, w1))
    (hW : 1 ≤ cfg.Workers) (hlen : L.length < 9223372036854775808) :
    (∀ sched, ∃ ext st, Mirror (NewService src tgt cfg) w (sched ++ ext) = some (.ok st))
    ∧ ∀ sched st, Mirror (NewService src tgt cfg) w sched = some (.ok st) →
        (headObjs (history (NewService src tgt cfg) w sched)).Perm L
        ∧ (run (NewService src tgt cfg) w sched).workers
            = List.replicate cfg.Workers.toNat .exited
        ∧ st = (run (NewService src tgt cfg) w sched).sh.stats
        ∧ st.CopiedObjects = (adds .CopiedObjects (history (NewService src tgt cfg) w sched)).length
        ∧ st.SkippedObjects
            = (adds .SkippedObjects (history (NewService src tgt cfg) w sched)).length
        ∧ st.Errors = (adds .Errors (history (NewService src tgt cfg) w sched)).length
        ∧ (adds .CopiedObjects (history (NewService src tgt cfg) w sched)
            ++ adds .SkippedObjects (history (NewService src tgt cfg) w sched)
            ++ adds .Errors (history (NewService src tgt cfg) w sched)).Perm L
        ∧ (skipHeads (history (NewService src tgt cfg) w sched) = [] →
            getFails (history (NewService src tgt cfg) w sched) = [] →
            putFails (history (NewService src tgt cfg) w sched) = [] →
            st.CopiedObjects = L.length
            ∧ (cfg.Workers = 20 → L.length = 1000 → st.CopiedObjects = 1000)) := by
  refine ⟨Mirror_returns_ok rfl hlist, ?_⟩
  intro sched st h
  obtain ⟨hst, hf⟩ := Mirror_final (s := NewService src tgt cfg) rfl hlist h
  injection hst with hst
  subst hst
  have hp := Final_outcomes hf hW
  have hl := hp.length_eq
  simp only [List.length_append] at hl
  have hc : (run (NewService src tgt cfg) w sched).sh.stats.CopiedObjects
      = (adds .CopiedObjects (history (NewService src tgt cfg) w sched)).length := by
    rw [hf.copied, wrapInt64_natCast (by omega)]; rfl
  have hs : (run (NewService src tgt cfg) w sched).sh.stats.SkippedObjects
      = (adds .SkippedObjects (history (NewService src tgt cfg) w sched)).length := by
    rw [hf.skipped, wrapInt64_natCast (by omega)]; rfl
  have he : (run (NewService src tgt cfg) w sched).sh.stats.Errors
      = (adds .Errors (history (NewService src tgt cfg) w sched)).length := by
    rw [hf.errors, wrapInt64_natCast (by omega)]; rfl
  refine ⟨hf.heads hW, hf.workers, rfl, hc, hs, he, hp, ?_⟩
  intro h1 h2 h3
  have hk := hf.skip.length_eq
  unfold history at h1 h2 h3
  rw [h1] at hk
  have hcop : (run (NewService src tgt cfg) w sched).sh.stats.CopiedObjects = L.length := by
    rw [hc]
    unfold history
    cases hd : cfg.DryRun with
    | true =>
      obtain ⟨d1, d2, d3, d4, d5⟩ := hf.dry hd
      rw [d4] at hl
      simp only [List.length_nil] at hl hk
      omega
    | false =>
      obtain ⟨w1, w2, w3, w4, w5⟩ := hf.wet hd
      have := w3.length_eq
      rw [h2, h3] at this
      simp only [List.length_nil, List.length_append] at this hk
      omega
  refine ⟨hcop, ?_⟩
  intro _ h1000
  rw [hcop, h1000]
  rfl

/-! ## `copyObject` and `worker` run alone -/

theorem jobRun_succ {σ : Type} (s : Service σ) (inside : WorkerPc → Bool) (fuel : Nat)
    (pc : WorkerPc) (sh : Shared σ) (h : inside pc = true) :
    jobRun s inside (fuel + 1) pc sh
      = jobRun s inside fuel (jobStep s pc sh).1 (jobStep s pc sh).2 := by
  simp only [jobRun, h, if_true]

theorem jobRun_stop {σ : Type} (s : Service σ) (inside : WorkerPc → Bool) (fuel : Nat)
    (pc : WorkerPc) (sh : Shared σ) (h : inside pc = false) :
    jobRun s inside fuel pc sh = (pc, sh) := by
  cases fuel with
  | zero => rfl
  | succ n => simp only [jobRun, h, Bool.false_eq_true, if_false]

/-- The function `copyObject` is the machine's worker run alone from the call
of `HeadObject` until `copyObject` returns. -/
theorem jobRun_copyObject {σ : Type} (s : Service σ) (obj : ObjectInfo) (sh : Shared σ) :
    jobRun s WorkerPc.inCopyObject 5 (.callHead obj) sh
      = (afterCopyObject obj (copyObject s obj sh).1, (copyObject s obj sh).2) := by
  rw [jobRun_succ _ _ _ _ _ (by rfl)]
  unfold copyObject
  simp only [jobStep]
  cases h1 : sameETag (s.targetClient.HeadObject sh.world (targetKey s.config obj)).1 obj with
  | true =>
    simp only [if_true]
    rw [jobRun_succ, jobRun_stop]
    all_goals rfl
  | false =>
    simp only [Bool.false_eq_true, if_false]
    cases h2 : s.config.DryRun with
    | true =>
      simp only [if_true]
      rw [jobRun_succ, jobRun_stop]
      all_goals rfl
    | false =>
      simp only [Bool.false_eq_true, if_false]
      rw [jobRun_succ _ _ 3 (.callGet obj) _ (by rfl)]
      simp only [jobStep]
      cases h3 : (s.sourceClient.GetObject (s.targetClient.HeadObject sh.world
          (targetKey s.config obj)).2 obj.Key).1 with
      | error err =>
        simp only
        rw [jobRun_stop]
        all_goals rfl
      | ok body =>
        simp only
        rw [jobRun_succ _ _ 2 (.callPut obj body) _ (by rfl)]
        simp only [jobStep]
        cases h4 : (s.targetClient.PutObject (s.sourceClient.GetObject
            (s.targetClient.HeadObject sh.world (targetKey s.config obj)).2 obj.Key).2
            (targetKey s.config obj) body obj.Size).1 with
        | some err =>
          simp only
          rw [jobRun_stop]
          all_goals rfl
        | none =>
          simp only
          rw [jobRun_succ, jobRun_succ, jobRun_stop]
          all_goals rfl

/-- One iteration of the loop of `worker` is the machine's worker run alone
from the call of `HeadObject` until it is back at the receive. -/
theorem iterationRun_worker {σ : Type} (s : Service σ) (obj : ObjectInfo) (sh : Shared σ) :
    jobRun s WorkerPc.inIteration 6 (.callHead obj) sh = (.recv, workerIteration s obj sh) := by
  rw [jobRun_succ _ _ _ _ _ (by rfl)]
  unfold workerIteration copyObject
  simp only [jobStep]
  cases h1 : sameETag (s.targetClient.HeadObject sh.world (targetKey s.config obj)).1 obj with
  | true =>
    simp only [if_true]
    rw [jobRun_succ, jobRun_stop]
    all_goals rfl
  | false =>
    simp only [Bool.false_eq_true, if_false]
    cases h2 : s.config.DryRun with
    | true =>
      simp only [if_true]
      rw [jobRun_succ, jobRun_stop]
      all_goals rfl
    | false =>
      simp only [Bool.false_eq_true, if_false]
      rw [jobRun_succ _ _ 4 (.callGet obj) _ (by rfl)]
      simp only [jobStep]
      cases h3 : (s.sourceClient.GetObject (s.targetClient.HeadObject sh.world
          (targetKey s.config obj)).2 obj.Key).1 with
      | error err =>
        simp only
        rw [jobRun_succ, jobRun_stop]
        all_goals rfl
      | ok body =>
        simp only
        rw [jobRun_succ _ _ 3 (.callPut obj body) _ (by rfl)]
        simp only [jobStep]
        cases h4 : (s.targetClient.PutObject (s.sourceClient.GetObject
            (s.targetClient.HeadObject sh.world (targetKey s.config obj)).2 obj.Key).2
            (targetKey s.config obj) body obj.Size).1 with
        | some err =>
          simp only
          rw [jobRun_succ, jobRun_stop]
          all_goals rfl
        | none =>
          simp only
          rw [jobRun_succ, jobRun_succ, jobRun_stop]
          all_goals rfl

theorem targetKey_eq (cfg : Config) (obj : ObjectInfo) :
    targetKey cfg obj = cfg.Target.Prefix ++ obj.Key := by
  unfold targetKey
  split_ifs with h
  · rfl
  · simp only [ne_eq, not_not] at h
    rw [h]
    exact (String.empty_append _).symm

theorem sameETag_iff (res : Except GoError ObjectInfo) (obj : ObjectInfo) :
    sameETag res obj = true ↔ ∃ t, res = .ok t ∧ t.ETag = obj.ETag := by
  cases res with
  | error e => simp [sameETag]
  | ok t => simp [sameETag]

/-- C2, skip decision. `copyObject` counts the object as skipped if and only if
`HeadObject` on the resolved target key succeeds with an ETag equal to the
object's. In that case it returns nil, adds 1 to `SkippedObjects` and makes no
other call. In every other case `SkippedObjects` is unchanged and it takes the
copy path: in a dry run it counts a copy, otherwise it calls `GetObject`. -/
theorem skip_decision {σ : Type} (s : Service σ) (obj : ObjectInfo) (sh : Shared σ) :
    ((∃ t, (s.targetClient.HeadObject sh.world (targetKey s.config obj)).1 = .ok t
        ∧ t.ETag = obj.ETag) ↔
      adds .SkippedObjects (copyObject s obj sh).2.trace = adds .SkippedObjects sh.trace ++ [obj])
    ∧ ((∃ t, (s.targetClient.HeadObject sh.world (targetKey s.config obj)).1 = .ok t
        ∧ t.ETag = obj.ETag) →
      copyObject s obj sh
        = (none,
            { world := (s.targetClient.HeadObject sh.world (targetKey s.config obj)).2,
              stats := { sh.stats with SkippedObjects := AddInt64 sh.stats.SkippedObjects 1 },
              trace := sh.trace ++
                [.headObject obj (targetKey s.config obj)
                    (s.targetClient.HeadObject sh.world (targetKey s.config obj)).1,
                  .atomicAdd obj .SkippedObjects 1] }))
    ∧ (¬ (∃ t, (s.targetClient.HeadObject sh.world (targetKey s.config obj)).1 = .ok t
        ∧ t.ETag = obj.ETag) →
      (copyObject s obj sh).2.stats.SkippedObjects = sh.stats.SkippedObjects
      ∧ (s.config.DryRun = true →
          copyObject s obj sh
            = (none,
                { world := (s.targetClient.HeadObject sh.world (targetKey s.config obj)).2,
                  stats := { sh.stats with CopiedObjects := AddInt64 sh.stats.CopiedObjects 1 },
                  trace := sh.trace ++
                    [.headObject obj (targetKey s.config obj)
                        (s.targetClient.HeadObject sh.world (targetKey s.config obj)).1,
                      .atomicAdd obj .CopiedObjects 1] }))
      ∧ (s.config.DryRun = false →
          getObjs (copyObject s obj sh).2.trace = getObjs sh.trace ++ [obj])) := by
  rw [← sameETag_iff]
  cases h1 : sameETag (s.targetClient.HeadObject sh.world (targetKey s.config obj)).1 obj with
  | true =>
    simp [copyObject, h1, Shared.atomicAdd, Stats.atomicAdd, adds, List.filterMap_append]
  | false =>
    simp only [Bool.false_eq_true, false_iff, false_implies, true_and, not_false_eq_true,
      true_implies]
    cases h2 : s.config.DryRun with
    | true =>
      simp [copyObject, h1, h2, Shared.atomicAdd, Stats.atomicAdd, adds, List.filterMap_append]
    | false =>
      simp only [copyObject, h1, h2, Bool.false_eq_true, if_false]
      cases h3 : (s.sourceClient.GetObject (s.targetClient.HeadObject sh.world
          (targetKey s.config obj)).2 obj.Key).1 with
      | error err => simp [adds, getObjs, List.filterMap_append]
      | ok body =>
        simp only
        cases h4 : (s.targetClient.PutObject (s.sourceClient.GetObject
            (s.targetClient.HeadObject sh.world (targetKey s.config obj)).2 obj.Key).2
            (targetKey s.config obj) body obj.Size).1 with
        | some err => simp [adds, getObjs, List.filterMap_append]
        | none =>
          simp [adds, getObjs, List.filterMap_append, Shared.atomicAdd, Stats.atomicAdd]

theorem keys_step {σ : Type} {s : Service σ} {m m' : Machine σ}
    (h : ∀ e ∈ m.sh.trace, e.keyOk s.config) (st : Step s m m') :
    ∀ e ∈ m'.sh.trace, e.keyOk s.config := by
  cases st <;> first
    | exact h
    | (intro e he
       simp only [List.mem_append, List.mem_singleton] at he
       rcases he with he | rfl
       · exact h e he
       · simp only [Event.keyOk, targetKey_eq, and_self])

theorem keys_exec {σ : Type} {s : Service σ} (sched : List Nat) {m : Machine σ}
    (h : ∀ e ∈ m.sh.trace, e.keyOk s.config) :
    ∀ e ∈ (Machine.exec s sched m).sh.trace, e.keyOk s.config := by
  induction sched using List.reverseRecOn with
  | nil => exact h
  | append_singleton l tid ih =>
    rw [exec_concat]
    rcases step_sound s tid (Machine.exec s l m) with he | hs
    · rw [he]; exact ih
    · exact keys_step ih hs

/-- C6, target-prefix resolution. The target key is `Target.Prefix ++ Key` (the
key itself when the prefix is empty). `copyObject` calls `HeadObject` once, and
every call it makes carries the right key: `HeadObject` and `PutObject` the
target key, `GetObject` the unmodified source key. The same holds of every call
in the history of a `Mirror` run. -/
theorem target_prefix_resolution {σ : Type} (s : Service σ) (obj : ObjectInfo) (sh : Shared σ) :
    targetKey s.config obj = s.config.Target.Prefix ++ obj.Key
    ∧ (s.config.Target.Prefix = "" → targetKey s.config obj = obj.Key)
    ∧ (∃ events, (copyObject s obj sh).2.trace = sh.trace ++ events
        ∧ headObjs events = [obj]
        ∧ ∀ e ∈ events, e.keyOk s.config)
    ∧ ∀ w sched, ∀ e ∈ history s w sched, e.keyOk s.config := by
  refine ⟨targetKey_eq _ _, ?_, ?_, ?_⟩
  · intro h; simp [targetKey, h]
  · unfold copyObject
    simp only
    split_ifs
    · simp only [Shared.atomicAdd, List.append_assoc, List.singleton_append]
      exact ⟨_, rfl, by simp [headObjs], by simp [Event.keyOk, targetKey_eq]⟩
    · simp only [Shared.atomicAdd, List.append_assoc, List.singleton_append]
      exact ⟨_, rfl, by simp [headObjs], by simp [Event.keyOk, targetKey_eq]⟩
    · split
      · simp only [List.append_assoc, List.singleton_append]
        exact ⟨_, rfl, by simp [headObjs], by simp [Event.keyOk, targetKey_eq]⟩
      · split
        · simp only [List.append_assoc, List.singleton_append]
          exact ⟨_, rfl, by simp [headObjs], by simp [Event.keyOk, targetKey_eq]⟩
        · simp only [Shared.atomicAdd, List.append_assoc, List.singleton_append]
          exact ⟨_, rfl, by simp [headObjs], by simp [Event.keyOk, targetKey_eq]⟩
  · intro w sched
    exact keys_exec sched (by simp [Machine.init])

/-! ## Configuration -/

theorem validateStorageConfig_eq_none (name : String) (cfg : StorageConfig) :
    validateStorageConfig name cfg = none ↔ cfg.wellFormed := by
  unfold validateStorageConfig StorageConfig.wellFormed
  by_cases h1 : cfg.Type' = "s3" <;> by_cases h2 : cfg.Type' = "minio" <;>
    by_cases h3 : cfg.Bucket = "" <;> by_cases h4 : cfg.Endpoint = "" <;>
    by_cases h5 : cfg.AccessKeyID = "" <;> by_cases h6 : cfg.SecretAccessKey = "" <;>
    simp [h1, h2, h3, h4, h5, h6]

theorem Validate_eq_none (c : Config) :
    Validate c = none ↔
      1 ≤ c.Workers ∧ c.Workers ≤ 100 ∧ c.Source.wellFormed ∧ c.Target.wellFormed := by
  unfold Validate
  cases h1 : validateStorageConfig "source" c.Source with
  | some e =>
    have : ¬ c.Source.wellFormed := by
      rw [← validateStorageConfig_eq_none "source"]; simp [h1]
    simp [this]
  | none =>
    have hs : c.Source.wellFormed := (validateStorageConfig_eq_none "source" _).1 h1
    cases h2 : validateStorageConfig "target" c.Target with
    | some e =>
      have : ¬ c.Target.wellFormed := by
        rw [← validateStorageConfig_eq_none "target"]; simp [h2]
      simp [this]
    | none =>
      have ht : c.Target.wellFormed := (validateStorageConfig_eq_none "target" _).1 h2
      simp only [hs, ht, and_true]
      split_ifs <;> simp <;> omega

theorem branch_of_wellFormed {cfg : StorageConfig} (h : cfg.wellFormed) :
    (cfg.Type' = "s3" ∧ NewClient.branch cfg = .newS3Client)
    ∨ (cfg.Type' = "minio" ∧ NewClient.branch cfg = .newMinIOClient) := by
  unfold NewClient.branch
  rcases h.1 with h | h
  · left; simp [h]
  · right; simp [h]

theorem startup_engine {C A M : Type} {sdk : SDK C A M} {c c' : Config}
    {a b : ClientValue A M} (h : startup sdk c = .engine a b c') :
    c' = c ∧ Validate c = none ∧ NewClient sdk c.Source = .ok a
      ∧ NewClient sdk c.Target = .ok b := by
  unfold startup at h
  cases hv : Validate c with
  | some e => rw [hv] at h; cases h
  | none =>
    rw [hv] at h
    cases hs : NewClient sdk c.Source with
    | error e => rw [hs] at h; cases h
    | ok x =>
      rw [hs] at h
      cases ht : NewClient sdk c.Target with
      | error e => rw [ht] at h; cases h
      | ok y =>
        rw [ht] at h
        simp only [Startup.engine.injEq] at h
        obtain ⟨rfl, rfl, rfl⟩ := h
        exact ⟨rfl, rfl, rfl, rfl⟩

/-- A non-positive `-workers` flag leaves the worker count of the file. -/
theorem overrideFlags_Workers (flags : Flags) (cfg : Config) :
    (overrideFlags flags cfg).Workers
      = if flags.workers > 0 then flags.workers else cfg.Workers := by
  unfold overrideFlags
  split_ifs <;> rfl

/-- A worker count of 0 in the file is replaced by 10. -/
theorem LoadFromFile_Workers (read : String → Except GoError Config) (filename : String)
    (cfg0 cfg : Config) (h0 : read filename = .ok cfg0)
    (h : LoadFromFile read filename = .ok cfg) :
    cfg.Workers = if cfg0.Workers = 0 then 10 else cfg0.Workers := by
  unfold LoadFromFile at h
  rw [h0] at h
  simp only [Except.ok.injEq] at h
  subst h
  split_ifs <;> rfl

/-- C10, configuration validation. `Validate` returns nil if and only if
`1 ≤ Workers ≤ 100` and both storage configurations are well formed; otherwise
it returns an error, and `main` stops with that error before any client is
created. For a configuration that `Validate` accepts, `Workers ≥ 1`, the
`switch` of `NewClient` selects the S3 or the MinIO constructor for both
sides, never its `unsupported storage type` case, and `main` stops only if
one of the two constructors fails; otherwise it calls `NewService` with that
configuration. Whenever `NewService` is called, `Validate` has accepted its
configuration, `1 ≤ Workers ≤ 100`, and the clients are those the constructors
returned; this also holds of `main` as a whole, for every configuration file
and all flags. -/
theorem Validate_nil_iff {C A M : Type} (sdk : SDK C A M) (c : Config) :
    (Validate c = none ↔
      1 ≤ c.Workers ∧ c.Workers ≤ 100 ∧ c.Source.wellFormed ∧ c.Target.wellFormed)
    ∧ (Validate c ≠ none ↔ ∃ err, Validate c = some err)
    ∧ (∀ err, Validate c = some err → startup sdk c = .configurationError err)
    ∧ (Validate c = none →
        1 ≤ c.Workers
        ∧ NewClient.branch c.Source ≠ .unsupported
        ∧ NewClient.branch c.Target ≠ .unsupported
        ∧ (∀ err, NewClient sdk c.Source = .error err → startup sdk c = .failedSourceClient err)
        ∧ (∀ a err, NewClient sdk c.Source = .ok a → NewClient sdk c.Target = .error err →
            startup sdk c = .failedTargetClient err)
        ∧ (∀ a b, NewClient sdk c.Source = .ok a → NewClient sdk c.Target = .ok b →
            startup sdk c = .engine a b c))
    ∧ (∀ a b c', startup sdk c = .engine a b c' →
        c' = c ∧ Validate c = none ∧ 1 ≤ c'.Workers ∧ c'.Workers ≤ 100
        ∧ NewClient.branch c'.Source ≠ .unsupported
        ∧ NewClient.branch c'.Target ≠ .unsupported
        ∧ NewClient sdk c.Source = .ok a ∧ NewClient sdk c.Target = .ok b)
    ∧ (∀ (read : String → Except GoError Config) (flags : Flags) a b c',
        main sdk read flags = .engine a b c' →
        Validate c' = none ∧ 1 ≤ c'.Workers ∧ c'.Workers ≤ 100
        ∧ NewClient.branch c'.Source ≠ .unsupported
        ∧ NewClient.branch c'.Target ≠ .unsupported
        ∧ ∃ cfg, LoadFromFile read flags.configFile = .ok cfg ∧ c' = overrideFlags flags cfg) := by
  have key := Validate_eq_none c
  refine ⟨key, ?_, ?_, ?_, ?_, ?_⟩
  · cases Validate c <;> simp
  · intro err h
    simp only [startup, h]
  · intro h
    obtain ⟨hw, -, hs, ht⟩ := key.1 h
    refine ⟨hw, ?_, ?_, ?_, ?_, ?_⟩
    · rcases branch_of_wellFormed hs with ⟨-, h⟩ | ⟨-, h⟩ <;> rw [h] <;> decide
    · rcases branch_of_wellFormed ht with ⟨-, h⟩ | ⟨-, h⟩ <;> rw [h] <;> decide
    · intro err he
      simp only [startup, h, he]
    · intro a err ha he
      simp only [startup, h, ha, he]
    · intro a b ha hb
      simp only [startup, h, ha, hb]
  · intro a b c' h
    obtain ⟨rfl, hv, ha, hb⟩ := startup_engine h
    obtain ⟨hw, hw', hs, ht⟩ := key.1 hv
    refine ⟨rfl, hv, hw, hw', ?_, ?_, ha, hb⟩
    · rcases branch_of_wellFormed hs with ⟨-, h⟩ | ⟨-, h⟩ <;> rw [h] <;> decide
    · rcases branch_of_wellFormed ht with ⟨-, h⟩ | ⟨-, h⟩ <;> rw [h] <;> decide
  · intro read flags a b c' h
    unfold main at h
    cases hl : LoadFromFile read flags.configFile with
    | error e => rw [hl] at h; cases h
    | ok cfg =>
      rw [hl] at h
      obtain ⟨rfl, hv, -, -⟩ := startup_engine h
      obtain ⟨hw, hw', hs, ht⟩ := (Validate_eq_none _).1 hv
      refine ⟨hv, hw, hw', ?_, ?_, cfg, rfl, rfl⟩
      · rcases branch_of_wellFormed hs with ⟨-, h⟩ | ⟨-, h⟩ <;> rw [h] <;> decide
      · rcases branch_of_wellFormed ht with ⟨-, h⟩ | ⟨-, h⟩ <;> rw [h] <;> decide

/-! ## Idempotence on the in-memory store -/

theorem targetKey_inj (cfg : Config) {a b : ObjectInfo} (h : targetKey cfg a = targetKey cfg b) :
    a.Key = b.Key := by
  rw [targetKey_eq, targetKey_eq] at h
  have := congrArg String.data h
  simp only [String.data_append] at this
  exact String.ext (List.append_cancel_left this)

theorem eq_of_key_eq {L : List ObjectInfo} (hk : (L.map ObjectInfo.Key).Nodup) {a b : ObjectInfo}
    (ha : a ∈ L) (hb : b ∈ L) (h : a.Key = b.Key) : a = b :=
  List.inj_on_of_nodup_map hk ha hb h

theorem MemStore_next_source (st : MemStore) : st.next.2.source = st.source := by
  unfold MemStore.next; split <;> rfl

theorem MemStore_next_target (st : MemStore) : st.next.2.target = st.target := by
  unfold MemStore.next; split <;> rfl

theorem MemStore_next_listing (st : MemStore) : st.next.2.listing = st.listing := by
  unfold MemStore.next; split <;> rfl

theorem memTarget_head {fp : Body → String} {st w : MemStore} {key : String}
    {res : Except GoError ObjectInfo} (h : (memTarget fp).HeadObject st key = (res, w)) :
    w.source = st.source ∧ w.listing = st.listing ∧ w.target = st.target
      ∧ (∀ t, res = .ok t → ∃ b, st.target key = some b ∧ t.ETag = fp b)
      ∧ (st.faults = [] → ∀ b, st.target key = some b → ∃ t, res = .ok t ∧ t.ETag = fp b)
      ∧ (st.faults = [] → w.faults = []) := by
  simp only [memTarget, memClient] at h
  have hs := MemStore_next_source st
  have ht := MemStore_next_target st
  have hl := MemStore_next_listing st
  have hf : st.faults = [] → st.next = (false, st) := by
    intro h0; simp [MemStore.next, h0]
  split_ifs at h with hn
  · cases h
    refine ⟨hs, hl, ht, by simp, ?_, ?_⟩ <;> intro h0 <;> rw [hf h0] at hn <;> simp at hn
  · cases hb : st.target key with
    | none =>
      rw [hb] at h
      cases h
      refine ⟨hs, hl, ht, by simp, by simp, ?_⟩
      intro h0; rw [hf h0]; exact h0
    | some b =>
      rw [hb] at h
      cases h
      refine ⟨hs, hl, ht, by simp, by simp, ?_⟩
      intro h0; rw [hf h0]; exact h0

theorem memSource_get {fp : Body → String} {st w : MemStore} {key : String}
    {res : Except GoError Body} (h : (memSource fp).GetObject st key = (res, w)) :
    w.source = st.source ∧ w.listing = st.listing ∧ w.target = st.target
      ∧ (∀ b, res = .ok b → st.source key = some b)
      ∧ (st.faults = [] → w.faults = []) := by
  simp only [memSource, memClient] at h
  have hs := MemStore_next_source st
  have ht := MemStore_next_target st
  have hl := MemStore_next_listing st
  have hf : st.faults = [] → st.next = (false, st) := by
    intro h0; simp [MemStore.next, h0]
  split_ifs at h with hn
  · cases h
    refine ⟨hs, hl, ht, by simp, ?_⟩
    intro h0; rw [hf h0] at hn; simp at hn
  · cases hb : st.source key with
    | none =>
      rw [hb] at h
      cases h
      refine ⟨hs, hl, ht, by simp, ?_⟩
      intro h0; rw [hf h0]; exact h0
    | some b =>
      rw [hb] at h
      cases h
      refine ⟨hs, hl, ht, by simp, ?_⟩
      intro h0; rw [hf h0]; exact h0

theorem memTarget_put {fp : Body → String} {st w : MemStore} {key : String} {body : Body}
    {size : Int} {res : Option GoError}
    (h : (memTarget fp).PutObject st key body size = (res, w)) :
    w.source = st.source ∧ w.listing = st.listing
      ∧ (res = none → w.target = fun k => if k = key then some body else st.target k)
      ∧ (res ≠ none → w.target = st.target)
      ∧ (st.faults = [] → w.faults = []) := by
  simp only [memTarget, memClient] at h
  have hs := MemStore_next_source st
  have ht := MemStore_next_target st
  have hl := MemStore_next_listing st
  have hf : st.faults = [] → st.next = (false, st) := by
    intro h0; simp [MemStore.next, h0]
  split_ifs at h with hn
  · cases h
    refine ⟨hs, hl, by simp, fun _ => ht, ?_⟩
    intro h0; rw [hf h0] at hn; simp at hn
  · cases h
    refine ⟨hs, hl, fun _ => by simp [ht], by simp, ?_⟩
    intro h0; rw [hf h0]; exact h0

theorem memSource_list {fp : Body → String} {st w : MemStore} {pfx : String}
    {res : Except GoError (List ObjectInfo)}
    (h : (memSource fp).ListObjects st pfx = (res, w)) :
    w.source = st.source ∧ w.listing = st.listing ∧ w.target = st.target
      ∧ (∀ L, res = .ok L → L = st.listing.filter (fun o => pfx.data.isPrefixOf o.Key.data))
      ∧ (st.faults = [] → w.faults = []
          ∧ res = .ok (st.listing.filter (fun o => pfx.data.isPrefixOf o.Key.data))) := by
  simp only [memSource, memClient] at h
  have hs := MemStore_next_source st
  have ht := MemStore_next_target st
  have hl := MemStore_next_listing st
  have hf : st.faults = [] → st.next = (false, st) := by
    intro h0; simp [MemStore.next, h0]
  split_ifs at h with hn
  · cases h
    refine ⟨hs, hl, ht, by simp, ?_⟩
    intro h0; rw [hf h0] at hn; simp at hn
  · cases h
    refine ⟨hs, hl, ht, by simp, ?_⟩
    intro h0; rw [hf h0]; exact ⟨h0, rfl⟩

theorem mem_skipHeads_append {tr : List Event} {e : Event} {o : ObjectInfo} :
    o ∈ skipHeads (tr ++ [e]) ↔ o ∈ skipHeads tr ∨ e.skipOf = some o := by
  simp [skipHeads, List.filterMap_append, List.mem_filterMap]

theorem mem_putOks_append {tr : List Event} {e : Event} {o : ObjectInfo} :
    o ∈ putOks (tr ++ [e]) ↔ o ∈ putOks tr ∨ e.putOkOf = some o := by
  simp [putOks, List.filterMap_append, List.mem_filterMap]

theorem Synced_update {fp : Body → String} {cfg : Config} {L : List ObjectInfo}
    (hk : (L.map ObjectInfo.Key).Nodup) {target : String → Option Body} {o o' : ObjectInfo}
    {body : Body} (ho : o ∈ L) (ho' : o' ∈ L) (hb : fp body = o.ETag)
    (h : o' = o ∨ Synced fp cfg target o') :
    Synced fp cfg (fun k => if k = targetKey cfg o then some body else target k) o' := by
  by_cases hkey : targetKey cfg o' = targetKey cfg o
  · have : o' = o := eq_of_key_eq hk ho' ho (targetKey_inj cfg hkey)
    subst this
    exact ⟨body, by simp, hb⟩
  · rcases h with rfl | ⟨b, h1, h2⟩
    · exact absurd rfl hkey
    · exact ⟨b, by simp [hkey, h1], h2⟩

theorem forall_mem_replace {α : Type} {P : α → Prop} {l1 l2 : List α} {a a' : α}
    (h : ∀ x ∈ l1 ++ a :: l2, P x) (hp : P a → P a') : ∀ x ∈ l1 ++ a' :: l2, P x := by
  intro x hx
  simp only [List.mem_append, List.mem_cons] at hx
  rcases hx with hx | rfl | hx
  · exact h x (by simp [hx])
  · exact hp (h a (by simp))
  · exact h x (by simp [hx])

theorem Stored_step {fp : Body → String} {cfg : Config} {st0 : MemStore} {L : List ObjectInfo}
    {m m' : Machine MemStore}
    (hk : (L.map ObjectInfo.Key).Nodup)
    (hfp : ∀ o ∈ L, (st0.source o.Key).map fp = some o.ETag)
    (hb : m.main.begun = true)
    (h : Stored fp cfg st0 L m)
    (st : Step (NewService (memSource fp) (memTarget fp) cfg) m m') : Stored fp cfg st0 L m' := by
  obtain ⟨h1, h2, h3, h4, h5, h6, h7, h8⟩ := h
  cases st <;> dsimp only at h1 h2 h3 h4 h5 h6 h7 h8
  case listErr => simp at hb
  case listOk => simp at hb
  case storeTotal => exact ⟨h1, h2, h3, h4, h5, h6, h7, h8⟩
  case spawnMore =>
    refine ⟨h1, h2, h3, h4, ?_, ?_, h7, h8⟩
    · intro pc hpc o ho
      simp only [List.mem_append, List.mem_singleton] at hpc
      rcases hpc with hpc | rfl
      · exact h5 pc hpc o ho
      · simp at ho
    · intro pc hpc o b ho
      simp only [List.mem_append, List.mem_singleton] at hpc
      rcases hpc with hpc | rfl
      · exact h6 pc hpc o b ho
      · simp at ho
  case spawnDone => exact ⟨h1, h2, h3, h4, h5, h6, h7, h8⟩
  case sendOne =>
    refine ⟨h1, h2, ?_, ?_, h5, h6, h7, h8⟩
    · intro o ho; exact h3 o (by simp at ho ⊢; exact Or.inr ho)
    · intro o ho
      simp only [List.mem_append, List.mem_singleton] at ho
      rcases ho with ho | rfl
      · exact h4 o ho
      · exact h3 o (by simp)
  case closeChan => exact ⟨h1, h2, by simp, h4, h5, h6, h7, h8⟩
  case waitDone => exact ⟨h1, h2, by simp, h4, h5, h6, h7, h8⟩
  case recvObj =>
    refine ⟨h1, h2, h3, ?_, ?_, ?_, h7, h8⟩
    · intro o ho; exact h4 o (by simp [ho])
    · refine forall_mem_replace h5 (fun _ o ho => ?_)
      simp at ho; subst ho; exact h4 _ (by simp)
    · exact forall_mem_replace h6 (fun _ o b ho => by simp at ho)
  case recvClosed =>
    exact ⟨h1, h2, h3, h4, forall_mem_replace h5 (fun _ o ho => by simp at ho),
      forall_mem_replace h6 (fun _ o b ho => by simp at ho), h7, h8⟩
  case headSkip obj res hcall hsame =>
    obtain ⟨e1, e2, e3, e4, -⟩ := memTarget_head hcall
    refine ⟨e1.trans h1, e2.trans h2, h3, h4,
      forall_mem_replace h5 (fun hp o ho => hp o (by simpa using ho)),
      forall_mem_replace h6 (fun _ o b ho => by simp at ho), ?_, ?_⟩
    · intro o ho
      rw [e3]
      rw [mem_skipHeads_append] at ho
      rcases ho with ho | ho
      · exact h7 o ho
      · simp only [Event.skipOf, hsame, if_true, Option.some.injEq] at ho
        subst ho
        refine ⟨h5 (.callHead obj) (by simp) _ rfl, ?_⟩
        obtain ⟨t, ht, het⟩ := (sameETag_iff _ _).1 hsame
        obtain ⟨b, hb1, hb2⟩ := e4 t ht
        exact ⟨b, hb1, by rw [← hb2, het]⟩
    · intro o ho
      rw [e3]
      rw [mem_putOks_append] at ho
      rcases ho with ho | ho
      · exact h8 o ho
      · simp at ho
  case headDry obj res hcall hsame hdry =>
    obtain ⟨e1, e2, e3, e4, -⟩ := memTarget_head hcall
    refine ⟨e1.trans h1, e2.trans h2, h3, h4,
      forall_mem_replace h5 (fun hp o ho => hp o (by simpa using ho)),
      forall_mem_replace h6 (fun _ o b ho => by simp at ho), ?_, ?_⟩
    · intro o ho
      rw [e3]
      rw [mem_skipHeads_append] at ho
      rcases ho with ho | ho
      · exact h7 o ho
      · simp [hsame] at ho
    · intro o ho
      rw [e3]
      rw [mem_putOks_append] at ho
      rcases ho with ho | ho
      · exact h8 o ho
      · simp at ho
  case headCopy obj res hcall hsame hdry =>
    obtain ⟨e1, e2, e3, e4, -⟩ := memTarget_head hcall
    refine ⟨e1.trans h1, e2.trans h2, h3, h4,
      forall_mem_replace h5 (fun hp o ho => hp o (by simpa using ho)),
      forall_mem_replace h6 (fun _ o b ho => by simp at ho), ?_, ?_⟩
    · intro o ho
      rw [e3]
      rw [mem_skipHeads_append] at ho
      rcases ho with ho | ho
      · exact h7 o ho
      · simp [hsame] at ho
    · intro o ho
      rw [e3]
      rw [mem_putOks_append] at ho
      rcases ho with ho | ho
      · exact h8 o ho
      · simp at ho
  case getErr obj err hcall =>
    obtain ⟨e1, e2, e3, e4, -⟩ := memSource_get hcall
    refine ⟨e1.trans h1, e2.trans h2, h3, h4,
      forall_mem_replace h5 (fun hp o ho => hp o (by simpa using ho)),
      forall_mem_replace h6 (fun _ o b ho => by simp at ho), ?_, ?_⟩
    · intro o ho
      rw [e3]
      rw [mem_skipHeads_append] at ho
      rcases ho with ho | ho
      · exact h7 o ho
      · simp at ho
    · intro o ho
      rw [e3]
      rw [mem_putOks_append] at ho
      rcases ho with ho | ho
      · exact h8 o ho
      · simp at ho
  case getOk obj body hcall =>
    obtain ⟨e1, e2, e3, e4, -⟩ := memSource_get hcall
    refine ⟨e1.trans h1, e2.trans h2, h3, h4,
      forall_mem_replace h5 (fun hp o ho => hp o (by simpa using ho)),
      forall_mem_replace h6 (fun _ o b ho => ?_), ?_, ?_⟩
    · simp only [WorkerPc.body, Option.some.injEq, Prod.mk.injEq] at ho
      obtain ⟨rfl, rfl⟩ := ho
      rw [← h1]
      exact e4 _ rfl
    · intro o ho
      rw [e3]
      rw [mem_skipHeads_append] at ho
      rcases ho with ho | ho
      · exact h7 o ho
      · simp at ho
    · intro o ho
      rw [e3]
      rw [mem_putOks_append] at ho
      rcases ho with ho | ho
      · exact h8 o ho
      · simp at ho
  case putErr obj body err hcall =>
    obtain ⟨e1, e2, -, e4, -⟩ := memTarget_put hcall
    have e3 := e4 (by simp)
    refine ⟨e1.trans h1, e2.trans h2, h3, h4,
      forall_mem_replace h5 (fun hp o ho => hp o (by simpa using ho)),
      forall_mem_replace h6 (fun _ o b ho => by simp at ho), ?_, ?_⟩
    · intro o ho
      rw [e3]
      rw [mem_skipHeads_append] at ho
      rcases ho with ho | ho
      · exact h7 o ho
      · simp at ho
    · intro o ho
      rw [e3]
      rw [mem_putOks_append] at ho
      rcases ho with ho | ho
      · exact h8 o ho
      · simp at ho
  case putOk l1 l2 obj body hcall =>
    obtain ⟨e1, e2, e3, -, -⟩ := memTarget_put hcall
    have e3 := e3 rfl
    have hobj : obj ∈ L := h5 (.callPut obj body) (by simp) _ rfl
    have hbody : fp body = obj.ETag := by
      have := h6 (.callPut obj body) (by simp) obj body rfl
      have hmap := hfp obj hobj
      rw [this] at hmap
      simpa using hmap
    refine ⟨e1.trans h1, e2.trans h2, h3, h4,
      forall_mem_replace h5 (fun hp o ho => hp o (by simpa using ho)),
      forall_mem_replace h6 (fun _ o b ho => by simp at ho), ?_, ?_⟩
    · intro o ho
      rw [e3]
      rw [mem_skipHeads_append] at ho
      rcases ho with ho | ho
      · exact ⟨(h7 o ho).1, Synced_update hk hobj (h7 o ho).1 hbody (Or.inr (h7 o ho).2)⟩
      · simp at ho
    · intro o ho
      rw [e3]
      rw [mem_putOks_append] at ho
      rcases ho with ho | ho
      · exact ⟨(h8 o ho).1, Synced_update hk hobj (h8 o ho).1 hbody (Or.inr (h8 o ho).2)⟩
      · simp only [Event.putOkOf, Option.some.injEq] at ho
        subst ho
        exact ⟨hobj, Synced_update hk hobj hobj hbody (Or.inl rfl)⟩
  all_goals
    refine ⟨h1, h2, h3, h4,
      forall_mem_replace h5 (fun hp o ho => ?_),
      forall_mem_replace h6 (fun _ o b ho => by simp at ho), ?_, ?_⟩
    · first | (simp at ho; done) | exact hp o (by simpa using ho)
    · intro o ho
      rw [mem_skipHeads_append] at ho
      rcases ho with ho | ho
      · exact h7 o ho
      · simp at ho
    · intro o ho
      rw [mem_putOks_append] at ho
      rcases ho with ho | ho
      · exact h8 o ho
      · simp at ho

theorem Stored_listed {fp : Body → String} {cfg : Config} {st0 w1 : MemStore}
    {L : List ObjectInfo}
    (hlist : (memSource fp).ListObjects st0 cfg.Source.Prefix = (.ok L, w1)) :
    Stored fp cfg st0 L (Machine.listed (NewService (memSource fp) (memTarget fp) cfg) L w1) := by
  obtain ⟨e1, e2, e3, -, -⟩ := memSource_list hlist
  refine ⟨e1, e2, ?_, ?_, ?_, ?_, ?_, ?_⟩ <;>
    simp [Machine.listed, skipHeads, putOks]

theorem Stored_run {fp : Body → String} {cfg : Config} {st0 w1 : MemStore} {L : List ObjectInfo}
    (hk : (L.map ObjectInfo.Key).Nodup)
    (hfp : ∀ o ∈ L, (st0.source o.Key).map fp = some o.ETag)
    (hlist : (memSource fp).ListObjects st0 cfg.Source.Prefix = (.ok L, w1)) (sched : List Nat) :
    run (NewService (memSource fp) (memTarget fp) cfg) st0 sched
        = Machine.init (NewService (memSource fp) (memTarget fp) cfg) st0
    ∨ (Good (NewService (memSource fp) (memTarget fp) cfg) L
          (run (NewService (memSource fp) (memTarget fp) cfg) st0 sched)
        ∧ Stored fp cfg st0 L (run (NewService (memSource fp) (memTarget fp) cfg) st0 sched)) := by
  induction sched using List.reverseRecOn with
  | nil => exact Or.inl rfl
  | append_singleton l tid ih =>
    unfold S3Mirror.run at ih ⊢
    rw [exec_concat]
    rcases ih with h0 | ⟨hg, hs⟩
    · rw [h0]
      rcases step_init_ok (s := NewService (memSource fp) (memTarget fp) cfg) hlist tid with h | h
      · exact Or.inl h
      · rw [h]; exact Or.inr ⟨Good_listed _ L w1 rfl, Stored_listed hlist⟩
    · rcases step_sound (NewService (memSource fp) (memTarget fp) cfg) tid
          (Machine.exec _ l (Machine.init _ st0)) with he | hst
      · rw [he]; exact Or.inr ⟨hg, hs⟩
      · exact Or.inr ⟨Good_step hg hst, Stored_step hk hfp hg.begun hs hst⟩

theorem mem_of_count_pos {x : ObjectInfo} {l : List ObjectInfo} (h : 0 < l.count x) : x ∈ l :=
  List.count_pos_iff.1 h

/-- After a first run without errors the target holds every listed object. -/
theorem synced_after_run {fp : Body → String} {cfg : Config} {st0 w1 : MemStore}
    {L : List ObjectInfo}
    (hk : (L.map ObjectInfo.Key).Nodup)
    (hfp : ∀ o ∈ L, (st0.source o.Key).map fp = some o.ETag)
    (hlist : (memSource fp).ListObjects st0 cfg.Source.Prefix = (.ok L, w1))
    (hW : 1 ≤ cfg.Workers) (hdry : cfg.DryRun = false) (hlen : L.length < 9223372036854775808)
    {sched : List Nat} {st : Stats}
    (h : Mirror (NewService (memSource fp) (memTarget fp) cfg) st0 sched = some (.ok st))
    (herr : st.Errors = 0) :
    (run (NewService (memSource fp) (memTarget fp) cfg) st0 sched).sh.world.source = st0.source
    ∧ (run (NewService (memSource fp) (memTarget fp) cfg) st0 sched).sh.world.listing = st0.listing
    ∧ ∀ o ∈ L, Synced fp cfg
        (run (NewService (memSource fp) (memTarget fp) cfg) st0 sched).sh.world.target o := by
  obtain ⟨hst, hf⟩ := Mirror_final (s := NewService (memSource fp) (memTarget fp) cfg) rfl hlist h
  injection hst with hst
  subst hst
  rcases Stored_run hk hfp hlist sched with h0 | ⟨-, hs⟩
  · rw [Mirror_eq_some, h0] at h; simp [Machine.init] at h
  refine ⟨hs.source, hs.listing, ?_⟩
  intro o ho
  obtain ⟨w1, w2, w3, w4, w5⟩ := hf.wet hdry
  have hp := (Final_outcomes hf hW).length_eq
  simp only [List.length_append] at hp
  have he : (adds .Errors (run (NewService (memSource fp) (memTarget fp) cfg) st0 sched).sh.trace).length
      = 0 := by
    have := hf.errors
    rw [herr, wrapInt64_natCast (by omega)] at this
    omega
  have hfail := w3.length_eq
  rw [he, List.length_append] at hfail
  have c1 := (hf.heads hW).count_eq o
  have c2 := count_heads (run (NewService (memSource fp) (memTarget fp) cfg) st0 sched).sh.trace o
  have c3 := w1.count_eq o
  have c4 := count_gets (run (NewService (memSource fp) (memTarget fp) cfg) st0 sched).sh.trace o
  have c5 := w2.count_eq o
  have c6 := count_puts (run (NewService (memSource fp) (memTarget fp) cfg) st0 sched).sh.trace o
  have c7 : (getFails (run (NewService (memSource fp) (memTarget fp) cfg) st0 sched).sh.trace).count o
      = 0 := by
    rw [List.eq_nil_of_length_eq_zero (by omega :
      (getFails (run (NewService (memSource fp) (memTarget fp) cfg) st0 sched).sh.trace).length = 0)]
    rfl
  have c8 : (putFails (run (NewService (memSource fp) (memTarget fp) cfg) st0 sched).sh.trace).count o
      = 0 := by
    rw [List.eq_nil_of_length_eq_zero (by omega :
      (putFails (run (NewService (memSource fp) (memTarget fp) cfg) st0 sched).sh.trace).length = 0)]
    rfl
  have c9 : 0 < L.count o := List.count_pos_iff.2 ho
  by_cases hskip : 0 < (skipHeads
      (run (NewService (memSource fp) (memTarget fp) cfg) st0 sched).sh.trace).count o
  · exact (hs.skipped o (mem_of_count_pos hskip)).2
  · exact (hs.put o (mem_of_count_pos (by omega))).2

theorem mem_copyHeads_append {tr : List Event} {e : Event} :
    copyHeads (tr ++ [e]) = copyHeads tr ++ (match e.copyOf with | some o => [o] | none => []) := by
  simp only [copyHeads, List.filterMap_append, List.filterMap_cons, List.filterMap_nil]
  cases e.copyOf <;> rfl

theorem Quiet_step {fp : Body → String} {cfg : Config} {target : String → Option Body}
    {L : List ObjectInfo} {m m' : Machine MemStore}
    (hsync : ∀ o ∈ L, Synced fp cfg target o)
    (hdry : cfg.DryRun = false)
    (hb : m.main.begun = true)
    (h : Quiet target L m)
    (st : Step (NewService (memSource fp) (memTarget fp) cfg) m m') : Quiet target L m' := by
  obtain ⟨h1, h2, h3, h4, h5, h6⟩ := h
  cases st <;> dsimp only at h1 h2 h3 h4 h5 h6
  case listErr => simp at hb
  case listOk => simp at hb
  case storeTotal => exact ⟨h1, h2, h3, h4, h5, h6⟩
  case spawnMore =>
    refine ⟨h1, h2, h3, h4, ?_, h6⟩
    intro pc hpc
    simp only [List.mem_append, List.mem_singleton] at hpc
    rcases hpc with hpc | rfl
    · exact h5 pc hpc
    · simp
  case spawnDone => exact ⟨h1, h2, h3, h4, h5, h6⟩
  case sendOne =>
    refine ⟨h1, h2, ?_, ?_, h5, h6⟩
    · intro o ho; exact h3 o (by simp at ho ⊢; exact Or.inr ho)
    · intro o ho
      simp only [List.mem_append, List.mem_singleton] at ho
      rcases ho with ho | rfl
      · exact h4 o ho
      · exact h3 o (by simp)
  case closeChan => exact ⟨h1, h2, by simp, h4, h5, h6⟩
  case waitDone => exact ⟨h1, h2, by simp, h4, h5, h6⟩
  case recvObj =>
    refine ⟨h1, h2, h3, ?_, ?_, h6⟩
    · intro o ho; exact h4 o (by simp [ho])
    · refine forall_mem_replace h5 (fun _ => ⟨rfl, fun o ho => ?_⟩)
      simp at ho; subst ho; exact h4 _ (by simp)
  case recvClosed =>
    exact ⟨h1, h2, h3, h4, forall_mem_replace h5 (fun _ => ⟨rfl, fun o ho => by simp at ho⟩), h6⟩
  case headSkip obj res hcall hsame =>
    obtain ⟨e1, e2, e3, e4, e5, e6⟩ := memTarget_head hcall
    refine ⟨e3.trans h1, e6 h2, h3, h4,
      forall_mem_replace h5 (fun hp => ⟨rfl, fun o ho => hp.2 o (by simpa using ho)⟩), ?_⟩
    rw [mem_copyHeads_append, h6]
    simp [hsame]
  case headDry obj res hcall hsame hd =>
    have : cfg.DryRun = true := hd
    rw [hdry] at this
    cases this
  case headCopy l1 l2 obj res hcall hsame hd =>
    exfalso
    obtain ⟨e1, e2, e3, e4, e5, e6⟩ := memTarget_head hcall
    have hobj : obj ∈ L := (h5 (.callHead obj) (by simp)).2 _ rfl
    obtain ⟨b, hb1, hb2⟩ := hsync obj hobj
    rw [← h1] at hb1
    obtain ⟨t, ht1, ht2⟩ := e5 h2 b hb1
    have : sameETag res obj = true := (sameETag_iff _ _).2 ⟨t, ht1, by rw [ht2, hb2]⟩
    rw [hsame] at this
    cases this
  case addSkipped =>
    refine ⟨h1, h2, h3, h4,
      forall_mem_replace h5 (fun _ => ⟨rfl, fun o ho => by simp at ho⟩), ?_⟩
    rw [mem_copyHeads_append, h6]
    rfl
  all_goals
    exfalso
    have := (h5 _ (List.mem_append_right _ (List.mem_cons_self _ _))).1
    simp at this

theorem Quiet_listed {fp : Body → String} {cfg : Config} {st w1 : MemStore}
    {L : List ObjectInfo} (hf : st.faults = [])
    (hlist : (memSource fp).ListObjects st cfg.Source.Prefix = (.ok L, w1)) :
    Quiet st.target L (Machine.listed (NewService (memSource fp) (memTarget fp) cfg) L w1) := by
  obtain ⟨e1, e2, e3, -, e5⟩ := memSource_list hlist
  refine ⟨e3, (e5 hf).1, ?_, ?_, ?_, ?_⟩ <;> simp [Machine.listed, copyHeads]

theorem Quiet_run {fp : Body → String} {cfg : Config} {st w1 : MemStore} {L : List ObjectInfo}
    (hsync : ∀ o ∈ L, Synced fp cfg st.target o)
    (hdry : cfg.DryRun = false) (hf : st.faults = [])
    (hlist : (memSource fp).ListObjects st cfg.Source.Prefix = (.ok L, w1)) (sched : List Nat) :
    run (NewService (memSource fp) (memTarget fp) cfg) st sched
        = Machine.init (NewService (memSource fp) (memTarget fp) cfg) st
    ∨ (Good (NewService (memSource fp) (memTarget fp) cfg) L
          (run (NewService (memSource fp) (memTarget fp) cfg) st sched)
        ∧ Quiet st.target L (run (NewService (memSource fp) (memTarget fp) cfg) st sched)) := by
  induction sched using List.reverseRecOn with
  | nil => exact Or.inl rfl
  | append_singleton l tid ih =>
    unfold S3Mirror.run at ih ⊢
    rw [exec_concat]
    rcases ih with h0 | ⟨hg, hs⟩
    · rw [h0]
      rcases step_init_ok (s := NewService (memSource fp) (memTarget fp) cfg) hlist tid with h | h
      · exact Or.inl h
      · rw [h]; exact Or.inr ⟨Good_listed _ L w1 rfl, Quiet_listed hf hlist⟩
    · rcases step_sound (NewService (memSource fp) (memTarget fp) cfg) tid
          (Machine.exec _ l (Machine.init _ st)) with he | hst
      · rw [he]; exact Or.inr ⟨hg, hs⟩
      · exact Or.inr ⟨Good_step hg hst, Quiet_step hsync hdry hg.begun hs hst⟩

theorem memSource_list_calm (fp : Body → String) (st : MemStore) (pfx : String)
    (hf : st.faults = []) :
    (memSource fp).ListObjects st pfx
      = (.ok (st.listing.filter (fun o => pfx.data.isPrefixOf o.Key.data)), st) := by
  simp [memSource, memClient, MemStore.next, hf]

/-- C7, idempotence, on the in-memory store. Let the listing `L` have distinct
keys and ETags that are the fingerprints of the source contents, the target
hold anything, and any storage call of the first run be liable to fail. If a
first `Mirror` run (dry-run off, `Workers ≥ 1`, fresh service) returns with
`Errors = 0`, then a second run on a fresh service, from the store the first
run left and without failures, returns, with `CopiedObjects = 0`,
`BytesTransferred = 0` and `SkippedObjects = TotalObjects = len L`. -/
theorem idempotence (fp : Body → String) (cfg : Config) (st0 w1 : MemStore) (L : List ObjectInfo)
    (hlist : (memSource fp).ListObjects st0 cfg.Source.Prefix = (.ok L, w1))
    (hkeys : (L.map ObjectInfo.Key).Nodup)
    (hfp : ∀ o ∈ L, (st0.source o.Key).map fp = some o.ETag)
    (hW : 1 ≤ cfg.Workers) (hdry : cfg.DryRun = false) (hlen : L.length < 9223372036854775808)
    (sched1 : List Nat) (st1 : Stats)
    (h1 : Mirror (NewService (memSource fp) (memTarget fp) cfg) st0 sched1 = some (.ok st1))
    (herr : st1.Errors = 0) :
    (∀ sched2, ∃ ext st2,
      Mirror (NewService (memSource fp) (memTarget fp) cfg)
        (run (NewService (memSource fp) (memTarget fp) cfg) st0 sched1).sh.world.calm
        (sched2 ++ ext) = some (.ok st2))
    ∧ ∀ sched2 st2,
        Mirror (NewService (memSource fp) (memTarget fp) cfg)
          (run (NewService (memSource fp) (memTarget fp) cfg) st0 sched1).sh.world.calm
          sched2 = some (.ok st2) →
        st2.CopiedObjects = 0 ∧ st2.BytesTransferred = 0
          ∧ st2.SkippedObjects = st2.TotalObjects ∧ st2.TotalObjects = L.length := by
  obtain ⟨hsrc, hlst, hsync⟩ := synced_after_run hkeys hfp hlist hW hdry hlen h1 herr
  obtain ⟨-, -, -, hL, -⟩ := memSource_list hlist
  have hL := hL L rfl
  have hlist2 : (NewService (memSource fp) (memTarget fp) cfg).sourceClient.ListObjects
      (run (NewService (memSource fp) (memTarget fp) cfg) st0 sched1).sh.world.calm
      (NewService (memSource fp) (memTarget fp) cfg).config.Source.Prefix
        = (.ok L, (run (NewService (memSource fp) (memTarget fp) cfg) st0 sched1).sh.world.calm) := by
    have := memSource_list_calm fp
      (run (NewService (memSource fp) (memTarget fp) cfg) st0 sched1).sh.world.calm
      cfg.Source.Prefix rfl
    rw [hL, ← hlst]
    exact this
  refine ⟨Mirror_returns_ok rfl hlist2, ?_⟩
  intro sched2 st2 h2
  obtain ⟨hst, hf⟩ := Mirror_final rfl hlist2 h2
  injection hst with hst
  subst hst
  rcases @Quiet_run fp cfg
      (run (NewService (memSource fp) (memTarget fp) cfg) st0 sched1).sh.world.calm _ L
      hsync hdry rfl hlist2 sched2 with h0 | ⟨-, hq⟩
  · rw [Mirror_eq_some, h0] at h2; simp [Machine.init] at h2
  obtain ⟨w1, w2, w3, w4, w5⟩ := hf.wet hdry
  have hc := hq.copy
  have l1 := w1.length_eq
  have l2 := w2.length_eq
  have l4 := w4.length_eq
  have l5 := w5.length_eq
  have l6 := length_gets
    (run (NewService (memSource fp) (memTarget fp) cfg)
      (run (NewService (memSource fp) (memTarget fp) cfg) st0 sched1).sh.world.calm sched2).sh.trace
  have l7 := length_puts
    (run (NewService (memSource fp) (memTarget fp) cfg)
      (run (NewService (memSource fp) (memTarget fp) cfg) st0 sched1).sh.world.calm sched2).sh.trace
  have l8 := length_heads
    (run (NewService (memSource fp) (memTarget fp) cfg)
      (run (NewService (memSource fp) (memTarget fp) cfg) st0 sched1).sh.world.calm sched2).sh.trace
  have l9 := (hf.heads hW).length_eq
  have l10 := hf.skip.length_eq
  rw [hc] at l1 l8
  simp only [List.length_nil] at l1 l8
  have hcop : (adds .CopiedObjects (run (NewService (memSource fp) (memTarget fp) cfg)
      (run (NewService (memSource fp) (memTarget fp) cfg) st0 sched1).sh.world.calm
        sched2).sh.trace) = [] := List.eq_nil_of_length_eq_zero (by omega)
  have hbyt : (adds .BytesTransferred (run (NewService (memSource fp) (memTarget fp) cfg)
      (run (NewService (memSource fp) (memTarget fp) cfg) st0 sched1).sh.world.calm
        sched2).sh.trace) = [] := List.eq_nil_of_length_eq_zero (by omega)
  refine ⟨?_, ?_, ?_, hf.total⟩
  · rw [hf.copied, hcop]; exact wrapInt64_zero
  · rw [hf.bytes, hbyt]; exact wrapInt64_zero
  · rw [hf.skipped, hf.total, wrapInt64_natCast (by omega)]
    congr 1
    omega

/-! ## Concrete runs -/

set_option maxRecDepth 100000 in
/-- C1 at a concrete run: three listed objects, one copied, one skipped, one failed. -/
theorem total_accounting_witness :
    Mirror (NewService (exampleSource exampleListing) exampleTarget (exampleConfig false 2)) ()
        (roundRobin 20) = some (.ok ⟨3, 1, 1, 1, 5⟩)
    ∧ (Stats.mk 3 1 1 1 5).TotalObjects = (3 : Nat)
    ∧ (Stats.mk 3 1 1 1 5).TotalObjects
        = (Stats.mk 3 1 1 1 5).CopiedObjects + (Stats.mk 3 1 1 1 5).SkippedObjects
          + (Stats.mk 3 1 1 1 5).Errors :=
  ⟨by rfl,
    ((total_accounting (exampleSource exampleListing) exampleTarget (exampleConfig false 2) () ()
      exampleListing rfl (by decide) (by decide)).2 (roundRobin 20) ⟨3, 1, 1, 1, 5⟩ (by rfl)).1,
    ((total_accounting (exampleSource exampleListing) exampleTarget (exampleConfig false 2) () ()
      exampleListing rfl (by decide) (by decide)).2 (roundRobin 20) ⟨3, 1, 1, 1, 5⟩ (by rfl)).2.1⟩

set_option maxRecDepth 100000 in
/-- C2 on the example of the specification: target ETag `abc` against source
ETag `abc` is skipped, against source ETag `xyz` it is copied. -/
theorem skip_decision_examples :
    (copyObject (NewService (exampleSource exampleListing) exampleTarget (exampleConfig false 2))
        ⟨"a.txt", 3, "abc", ""⟩ ⟨(), ⟨0, 0, 0, 0, 0⟩, []⟩).2.stats = ⟨0, 0, 1, 0, 0⟩
    ∧ (copyObject (NewService (exampleSource exampleListing) exampleTarget (exampleConfig false 2))
        ⟨"a.txt", 3, "xyz", ""⟩ ⟨(), ⟨0, 0, 0, 0, 0⟩, []⟩).2.stats = ⟨0, 1, 0, 0, 3⟩ :=
  ⟨by rfl, by rfl⟩

set_option maxRecDepth 100000 in
/-- C3 at two concrete dry runs: with two workers `a.txt` is skipped and the
other two objects are counted as copied; with no worker on an empty target no
skip decision is taken and nothing is counted. -/
theorem dry_run_purity_witness :
    (Mirror (NewService (exampleSource exampleListing) exampleTarget (exampleConfig true 2)) ()
        (roundRobin 20) = some (.ok ⟨3, 2, 1, 0, 0⟩)
      ∧ getObjs (history (NewService (exampleSource exampleListing) exampleTarget
          (exampleConfig true 2)) () (roundRobin 20)) = []
      ∧ putObjs (history (NewService (exampleSource exampleListing) exampleTarget
          (exampleConfig true 2)) () (roundRobin 20)) = []
      ∧ (Stats.mk 3 2 1 0 0).CopiedObjects
          = (copyHeads (history (NewService (exampleSource exampleListing) exampleTarget
              (exampleConfig true 2)) () (roundRobin 20))).length
      ∧ copyHeads (history (NewService (exampleSource exampleListing) exampleTarget
          (exampleConfig true 2)) () (roundRobin 20))
          = [⟨"b.txt", 4, "xyz", ""⟩, ⟨"c.txt", 5, "def", ""⟩])
    ∧ (Mirror (NewService (exampleSource exampleListing) emptyTarget (exampleConfig true 0)) ()
        (roundRobin 9) = some (.ok ⟨3, 0, 0, 0, 0⟩)
      ∧ (Stats.mk 3 0 0 0 0).CopiedObjects
          = (copyHeads (history (NewService (exampleSource exampleListing) emptyTarget
              (exampleConfig true 0)) () (roundRobin 9))).length
      ∧ headObjs (history (NewService (exampleSource exampleListing) emptyTarget
          (exampleConfig true 0)) () (roundRobin 9)) = []) :=
  ⟨⟨by rfl,
    ((dry_run_purity (exampleSource exampleListing) exampleTarget (exampleConfig true 2) () ()
      exampleListing rfl rfl (by decide)).2 (roundRobin 20) ⟨3, 2, 1, 0, 0⟩ (by rfl)).1,
    ((dry_run_purity (exampleSource exampleListing) exampleTarget (exampleConfig true 2) () ()
      exampleListing rfl rfl (by decide)).2 (roundRobin 20) ⟨3, 2, 1, 0, 0⟩ (by rfl)).2.1,
    ((dry_run_purity (exampleSource exampleListing) exampleTarget (exampleConfig true 2) () ()
      exampleListing rfl rfl (by decide)).2 (roundRobin 20) ⟨3, 2, 1, 0, 0⟩
        (by rfl)).2.2.2.2.1,
    by rfl⟩,
   ⟨by rfl,
    ((dry_run_purity (exampleSource exampleListing) emptyTarget (exampleConfig true 0) () ()
      exampleListing rfl rfl (by decide)).2 (roundRobin 9) ⟨3, 0, 0, 0, 0⟩ (by rfl)).2.2.2.2.1,
    by rfl⟩⟩

set_option maxRecDepth 100000 in
/-- C4 at a concrete run: the fetch of `b.txt` fails, `Errors = 1`, the others are counted. -/
theorem fault_isolation_witness :
    Mirror (NewService (exampleSource exampleListing) exampleTarget (exampleConfig false 2)) ()
        (roundRobin 20) = some (.ok ⟨3, 1, 1, 1, 5⟩)
    ∧ getFails (history (NewService (exampleSource exampleListing) exampleTarget
        (exampleConfig false 2)) () (roundRobin 20)) = [⟨"b.txt", 4, "xyz", ""⟩]
    ∧ ∃ st, (Except.ok ⟨3, 1, 1, 1, 5⟩ : Except GoError Stats) = .ok st ∧ st.Errors = 1 := by
  refine ⟨by rfl, by rfl, ?_⟩
  obtain ⟨st, h1, -, -, -, -, -, -, h8⟩ :=
    (fault_isolation (exampleSource exampleListing) exampleTarget (exampleConfig false 2) () ()
      exampleListing rfl (by decide) (by decide) rfl).2 (roundRobin 20) (.ok ⟨3, 1, 1, 1, 5⟩) (by rfl)
  exact ⟨st, h1, h8 (by rfl) (by rfl)⟩

set_option maxRecDepth 100000 in
/-- C5 at a concrete failing listing. -/
theorem Mirror_error_witness :
    Mirror (NewService brokenSource exampleTarget (exampleConfig false 2)) () (roundRobin 1)
        = some (.error (.wrap "failed to list source objects: " (.new "AccessDenied")))
    ∧ history (NewService brokenSource exampleTarget (exampleConfig false 2)) () (roundRobin 1)
        = [.listObjects "" (.error (.new "AccessDenied"))] :=
  ⟨by rfl,
    ((Mirror_error_iff_list_fails brokenSource exampleTarget (exampleConfig false 2) ()).2.2.1
      (.new "AccessDenied") rfl (roundRobin 1) _ (by rfl)).2⟩

/-- C6 on the example of the specification: prefix `backup/` and key `a.txt`. -/
theorem target_prefix_example :
    targetKey (exampleConfig false 2) ⟨"a.txt", 3, "abc", ""⟩ = "backup/a.txt" :=
  (target_prefix_resolution (NewService (exampleSource exampleListing) exampleTarget
    (exampleConfig false 2)) ⟨"a.txt", 3, "abc", ""⟩ ⟨(), ⟨0, 0, 0, 0, 0⟩, []⟩).1.trans (by decide)

set_option maxRecDepth 100000 in
/-- C7 at a concrete store: the first run copies both objects (the first
`HeadObject` fails), the second run skips both. -/
theorem idempotence_witness :
    Mirror (NewService (memSource exampleFingerprint) (memTarget exampleFingerprint)
        (exampleConfig false 2)) exampleStore (roundRobin 20) = some (.ok ⟨2, 2, 0, 0, 4⟩)
    ∧ Mirror (NewService (memSource exampleFingerprint) (memTarget exampleFingerprint)
        (exampleConfig false 2))
        (run (NewService (memSource exampleFingerprint) (memTarget exampleFingerprint)
          (exampleConfig false 2)) exampleStore (roundRobin 20)).sh.world.calm (roundRobin 20)
        = some (.ok ⟨2, 0, 2, 0, 0⟩)
    ∧ (Stats.mk 2 0 2 0 0).CopiedObjects = 0 ∧ (Stats.mk 2 0 2 0 0).BytesTransferred = 0
    ∧ (Stats.mk 2 0 2 0 0).SkippedObjects = (Stats.mk 2 0 2 0 0).TotalObjects
    ∧ (Stats.mk 2 0 2 0 0).TotalObjects = (exampleStore.listing.length : Int) :=
  ⟨by rfl, by rfl,
    (idempotence exampleFingerprint (exampleConfig false 2) exampleStore exampleStore.next.2
      exampleStore.listing (by rfl) (by decide) (by decide) (by decide) rfl (by decide)
      (roundRobin 20) ⟨2, 2, 0, 0, 4⟩ (by rfl) rfl).2 (roundRobin 20) ⟨2, 0, 2, 0, 0⟩ (by rfl)⟩

set_option maxRecDepth 100000 in
/-- C8 at a concrete run under a schedule that lets the second worker do all the work. -/
theorem no_lost_updates_witness :
    Mirror (NewService (exampleSource exampleListing) exampleTarget (exampleConfig false 2)) ()
        (List.replicate 9 0 ++ List.replicate 20 2 ++ [1, 0]) = some (.ok ⟨3, 1, 1, 1, 5⟩)
    ∧ (headObjs (history (NewService (exampleSource exampleListing) exampleTarget
        (exampleConfig false 2)) () (List.replicate 9 0 ++ List.replicate 20 2 ++ [1, 0]))).Perm
          exampleListing
    ∧ (run (NewService (exampleSource exampleListing) exampleTarget (exampleConfig false 2)) ()
        (List.replicate 9 0 ++ List.replicate 20 2 ++ [1, 0])).workers = [.exited, .exited] :=
  ⟨by rfl,
    ((no_lost_updates (exampleSource exampleListing) exampleTarget (exampleConfig false 2) () ()
      exampleListing rfl (by decide) (by decide)).2 _ ⟨3, 1, 1, 1, 5⟩ (by rfl)).1,
    ((no_lost_updates (exampleSource exampleListing) exampleTarget (exampleConfig false 2) () ()
      exampleListing rfl (by decide) (by decide)).2 _ ⟨3, 1, 1, 1, 5⟩ (by rfl)).2.1⟩

set_option maxRecDepth 100000 in
/-- C9 at a concrete run: only `c.txt` (5 bytes) is fetched and stored. -/
theorem bytes_accounting_witness :
    Mirror (NewService (exampleSource exampleListing) exampleTarget (exampleConfig false 2)) ()
        (roundRobin 20) = some (.ok ⟨3, 1, 1, 1, 5⟩)
    ∧ putOks (history (NewService (exampleSource exampleListing) exampleTarget
        (exampleConfig false 2)) () (roundRobin 20)) = [⟨"c.txt", 5, "def", ""⟩]
    ∧ (Stats.mk 3 1 1 1 5).BytesTransferred
        = wrapInt64 (((putOks (history (NewService (exampleSource exampleListing) exampleTarget
            (exampleConfig false 2)) () (roundRobin 20))).map ObjectInfo.Size).sum) :=
  ⟨by rfl, by rfl,
    ((bytes_accounting (exampleSource exampleListing) exampleTarget (exampleConfig false 2) () ()
      exampleListing rfl (by decide)).2 (roundRobin 20) ⟨3, 1, 1, 1, 5⟩ (by rfl)).1⟩

set_option maxRecDepth 100000 in
/-- C9 does not hold without wrap-around when the sum leaves the `int64` range: two objects of
2^62 bytes are copied and `BytesTransferred` is -2^63, not 2^63. -/
theorem bytes_overflow :
    1 ≤ (exampleConfig false 1).Workers
    ∧ Mirror (NewService (exampleSource hugeListing) exampleTarget (exampleConfig false 1)) ()
        (roundRobin 30) = some (.ok ⟨2, 2, 0, 0, -9223372036854775808⟩)
    ∧ ((putOks (history (NewService (exampleSource hugeListing) exampleTarget
        (exampleConfig false 1)) () (roundRobin 30))).map ObjectInfo.Size).sum
          = 9223372036854775808
    ∧ ¬ BytesExact (NewService (exampleSource hugeListing) exampleTarget (exampleConfig false 1)) ()
        (roundRobin 30) := by
  refine ⟨by decide, by rfl, by rfl, ?_⟩
  intro h
  have h1 := h ⟨2, 2, 0, 0, -9223372036854775808⟩ (by rfl)
  have e : ((putOks (history (NewService (exampleSource hugeListing) exampleTarget
      (exampleConfig false 1)) () (roundRobin 30))).map ObjectInfo.Size).sum
        = 9223372036854775808 := by rfl
  rw [e] at h1
  exact absurd h1 (by decide)

/-- C10 at concrete configurations: an accepted one reaches `NewService` with
S3 clients on both sides; one with no worker and one with too many workers
are stopped with the error of `Validate`; an accepted one whose MinIO
endpoint the SDK refuses is stopped at the source client; a `-workers` flag
of `-1` leaves the five workers of the configuration file in place. -/
theorem Validate_examples :
    Validate (exampleConfig false 2) = none
    ∧ startup exampleSDK (exampleConfig false 2)
        = .engine (.s3Client ⟨"us-east-1", "bucket", "us-east-1"⟩)
            (.s3Client ⟨"us-east-1", "bucket", "us-east-1"⟩) (exampleConfig false 2)
    ∧ startup exampleSDK (exampleConfig false 0)
        = .configurationError (.new "workers must be at least 1")
    ∧ startup exampleSDK (exampleConfig false 101)
        = .configurationError (.new "workers cannot exceed 100")
    ∧ Validate { exampleConfig false 2 with Source := minioStorage "http://localhost:9000" } = none
    ∧ startup exampleSDK { exampleConfig false 2 with Source := minioStorage "http://localhost:9000" }
        = .failedSourceClient (.new "Endpoint url cannot have fully qualified paths.")
    ∧ main exampleSDK exampleFile ⟨"config.yaml", -1, false, false⟩
        = .engine (.s3Client ⟨"us-east-1", "bucket", "us-east-1"⟩)
            (.s3Client ⟨"us-east-1", "bucket", "us-east-1"⟩) (exampleConfig false 5) :=
  ⟨by decide,
    (Validate_nil_iff exampleSDK (exampleConfig false 2)).2.2.2.1 (by decide)
      |>.2.2.2.2.2 _ _ (by rfl) (by rfl),
    (Validate_nil_iff exampleSDK (exampleConfig false 0)).2.2.1 _ (by decide),
    (Validate_nil_iff exampleSDK (exampleConfig false 101)).2.2.1 _ (by decide),
    by decide,
    ((Validate_nil_iff exampleSDK
      { exampleConfig false 2 with Source := minioStorage "http://localhost:9000" }).2.2.2.1
        (by decide)).2.2.2.1 _ (by rfl),
    by rfl⟩

end S3Mirror
